import Mathlib

/- Verification of the extraction and similarity-search core of
   "Advanced Sigil Analyzer.py".  Python strings are modelled as lists of
   characters, the regular expressions of the source are modelled by
   explicit backtracking matchers that follow the engine's lazy and greedy
   semantics, page coordinates are rationals, and the external rendering,
   disk and hashing collaborators are modelled as oracle functions.
   Python's str.isalnum, the regex classes backslash-w and backslash-s and
   str.strip are Unicode-aware; the model uses their ASCII meaning, on
   which all inputs considered here agree. -/

/-- ASCII whitespace: the characters recognised by the regex class
backslash-s and by str.strip for the inputs considered. -/
def isSpaceRe (c : Char) : Bool :=
  c == ' ' || c == '\t' || c == '\n' || c == '\r' || c == '\x0b' || c == '\x0c'

/-- Python str.strip: drop leading and trailing whitespace. -/
def stripChars (l : List Char) : List Char :=
  ((l.dropWhile isSpaceRe).reverse.dropWhile isSpaceRe).reverse

/-- Python str.strip on packed strings. -/
def pyStrip (s : String) : String := String.mk (stripChars s.toList)

/-- Python str.split on a newline separator, keeping empty segments. -/
def splitNl : List Char → List (List Char)
  | [] => [[]]
  | c :: rest =>
    if c == '\n' then [] :: splitNl rest
    else
      match splitNl rest with
      | [] => [[c]]
      | l :: ls => (c :: l) :: ls

/-- Python " ".join. -/
def joinSpace : List String → String
  | [] => ""
  | [s] => s
  | s :: rest => s ++ " " ++ joinSpace rest

/-- The first list starts the second one. -/
def beginsWith : List Char → List Char → Bool
  | [], _ => true
  | _ :: _, [] => false
  | a :: as, b :: bs => a == b && beginsWith as bs

/-- Python substring test (the in operator on strings). -/
def isSubstrOf (n : List Char) : List Char → Bool
  | [] => n.isEmpty
  | c :: t => beginsWith n (c :: t) || isSubstrOf n t

/-- Generic concatenation of mapped lists, in order. -/
def concatMap {α β : Type} (f : α → List β) : List α → List β
  | [] => []
  | a :: l => f a ++ concatMap f l

/- ----------------------------------------------------------------
   HEADING_CLASS_RE (source line 44).  The pattern is anchored, group 1 is
   one uppercase letter or digit followed by a lazy run of a body class,
   then greedy whitespace, then group 2: one uppercase letter, one to
   three lowercase letters (greedy) and a period.
   ---------------------------------------------------------------- -/

/-- First character class of the heading pattern: uppercase letter or digit. -/
def isHeadStart (c : Char) : Bool := c.isUpper || c.isDigit

/-- Body class of HEADING_CLASS_RE as written in the source: uppercase,
digit, whitespace, hyphen, RIGHT SINGLE QUOTATION MARK U+2019, comma.
The source file contains the typographic quote, not the ASCII apostrophe. -/
def isHeadBody (c : Char) : Bool :=
  isHeadStart c || isSpaceRe c || c == '-' || c == '’' || c == ','

/-- Body class of the heading pattern as the spec prints it, with the
ASCII apostrophe in place of U+2019; kept for comparison with the source. -/
def isHeadBodySpec (c : Char) : Bool :=
  isHeadStart c || isSpaceRe c || c == '-' || c == ',' || c == '\''

/-- Exactly n lowercase letters followed by a period; returns the consumed
characters and the rest. -/
def takeLowerDot : Nat → List Char → Option (List Char × List Char)
  | 0, [] => none
  | 0, c :: r => if c == '.' then some ([c], r) else none
  | _ + 1, [] => none
  | n + 1, c :: r =>
    if c.isLower then
      match takeLowerDot n r with
      | some (t, rest) => some (c :: t, rest)
      | none => none
    else none

/-- Group 2 of the heading pattern: an uppercase letter, then one to three
lowercase letters chosen greedily, then a period. -/
def matchClassTag : List Char → Option (List Char × List Char)
  | [] => none
  | c :: rest =>
    if c.isUpper then
      match takeLowerDot 3 rest with
      | some (t, r) => some (c :: t, r)
      | none =>
        match takeLowerDot 2 rest with
        | some (t, r) => some (c :: t, r)
        | none =>
          match takeLowerDot 1 rest with
          | some (t, r) => some (c :: t, r)
          | none => none
    else none

/-- Greedy one-or-more whitespace followed by group 2; longer whitespace
runs are preferred, as the regex engine does.  Returns the whitespace,
group 2 and the rest. -/
def spacesThenTag : List Char → Option (List Char × List Char × List Char)
  | [] => none
  | c :: rest =>
    if isSpaceRe c then
      match spacesThenTag rest with
      | some (ws, g2, r) => some (c :: ws, g2, r)
      | none =>
        match matchClassTag rest with
        | some (g2, r) => some ([c], g2, r)
        | none => none
    else none

/-- Lazy one-or-more run of the body class: the shortest extension whose
remainder matches whitespace plus group 2 wins.  Returns the body run, the
whitespace, group 2 and the rest. -/
def headBodyLazy (bodyOk : Char → Bool) :
    List Char → Option (List Char × List Char × List Char × List Char)
  | [] => none
  | c :: rest =>
    if bodyOk c then
      match spacesThenTag rest with
      | some (ws, g2, r) => some ([c], ws, g2, r)
      | none =>
        match headBodyLazy bodyOk rest with
        | some (body, ws, g2, r) => some (c :: body, ws, g2, r)
        | none => none
    else none

/-- Anchored match of the heading pattern with the given body class;
returns (group 1, whitespace, group 2, rest after the match). -/
def headingMatchGen (bodyOk : Char → Bool) (l : List Char) :
    Option (List Char × List Char × List Char × List Char) :=
  match l with
  | [] => none
  | c :: rest =>
    if isHeadStart c then
      match headBodyLazy bodyOk rest with
      | some (body, ws, g2, r) => some (c :: body, ws, g2, r)
      | none => none
    else none

/-- re.match with HEADING_CLASS_RE exactly as compiled on source line 44. -/
def headingClassMatch : List Char → Option (List Char × List Char × List Char × List Char) :=
  headingMatchGen isHeadBody

/-- re.match with the heading pattern as printed in the spec, which has
the ASCII apostrophe in the body class. -/
def headingMatchSpec : List Char → Option (List Char × List Char × List Char × List Char) :=
  headingMatchGen isHeadBodySpec

/- ----------------------------------------------------------------
   BIBLIO_RE (source line 45): a capital, a lazy run of letters and
   whitespace, then either whitespace and four digits, or whitespace, one
   or two digits (greedy) and a capital C.
   ---------------------------------------------------------------- -/

/-- Body class of BIBLIO_RE: ASCII letters and whitespace. -/
def isBiblioBody (c : Char) : Bool := c.isAlpha || isSpaceRe c

/-- One whitespace character then exactly four digits. -/
def wsFourDigits : List Char → Option (List Char × List Char)
  | s :: d1 :: d2 :: d3 :: d4 :: r =>
    if isSpaceRe s && d1.isDigit && d2.isDigit && d3.isDigit && d4.isDigit then
      some ([s, d1, d2, d3, d4], r)
    else none
  | _ => none

/-- One whitespace character then one or two digits (two preferred) then a
capital C. -/
def wsDigitsC : List Char → Option (List Char × List Char)
  | s :: d1 :: rest =>
    if isSpaceRe s && d1.isDigit then
      match rest with
      | d2 :: 'C' :: r =>
        if d2.isDigit then some ([s, d1, d2, 'C'], r)
        else if d2 == 'C' then some ([s, d1, 'C'], 'C' :: r)
        else none
      | 'C' :: r2 => some ([s, d1, 'C'], r2)
      | _ => none
    else none
  | _ => none

/-- Lazy one-or-more run of the bibliography body class followed by the
given tail matcher. -/
def biblioLazy (tail : List Char → Option (List Char × List Char)) :
    List Char → Option (List Char × List Char)
  | [] => none
  | c :: rest =>
    if isBiblioBody c then
      match tail rest with
      | some (t, r) => some (c :: t, r)
      | none =>
        match biblioLazy tail rest with
        | some (t, r) => some (c :: t, r)
        | none => none
    else none

/-- BIBLIO_RE attempted at the current position, left alternative first. -/
def biblioTryAt : List Char → Option (List Char × List Char)
  | [] => none
  | c :: rest =>
    if c.isUpper then
      match biblioLazy wsFourDigits rest with
      | some (t, r) => some (c :: t, r)
      | none =>
        match biblioLazy wsDigitsC rest with
        | some (t, r) => some (c :: t, r)
        | none => none
    else none

/-- re.search with BIBLIO_RE: a match attempt at every position. -/
def biblioSearchList : List Char → Bool
  | [] => false
  | c :: rest => (biblioTryAt (c :: rest)).isSome || biblioSearchList rest

/-- re.search with BIBLIO_RE on packed strings. -/
def biblioSearch (s : String) : Bool := biblioSearchList s.toList

/-- re.finditer with BIBLIO_RE: every non-overlapping match, scanning left
to right; the fuel argument bounds the number of scanning steps. -/
def biblioFindAll : Nat → List Char → List (List Char)
  | 0, _ => []
  | _ + 1, [] => []
  | fuel + 1, c :: rest =>
    match biblioTryAt (c :: rest) with
    | some (m, r) => m :: biblioFindAll fuel r
    | none => biblioFindAll fuel rest

/- ----------------------------------------------------------------
   Reference collection: sorted(list(set(...))) over stripped matches
   (source lines 558 to 560).
   ---------------------------------------------------------------- -/

/-- Code-point lexicographic comparison, the order Python sorts strings by. -/
def strLeChars : List Char → List Char → Bool
  | [], _ => true
  | _ :: _, [] => false
  | a :: as, b :: bs =>
    if a.toNat < b.toNat then true
    else if b.toNat < a.toNat then false
    else strLeChars as bs

/-- Lexicographic comparison on packed strings. -/
def strLe (a b : String) : Bool := strLeChars a.toList b.toList

/-- Ordered insertion for the string sort. -/
def insertStr (a : String) : List String → List String
  | [] => [a]
  | b :: l => if strLe a b then a :: b :: l else b :: insertStr a l

/-- Ascending lexicographic sort, modelling Python's sorted on strings. -/
def sortStrings : List String → List String
  | [] => []
  | a :: l => insertStr a (sortStrings l)

/-- Set formation: keep the first occurrence of every string. -/
def dedupKeepFirst (seen : List String) : List String → List String
  | [] => []
  | s :: rest =>
    if seen.contains s then dedupKeepFirst seen rest
    else s :: dedupKeepFirst (s :: seen) rest

/-- The reference list of a finalized description: every BIBLIO_RE match,
stripped, collected into a set and sorted (source lines 558 to 560). -/
def biblioRefsRaw (desc : String) : List String :=
  sortStrings (dedupKeepFirst []
    ((biblioFindAll (desc.toList.length + 1) desc.toList).map
      (fun m => String.mk (stripChars m))))

/- ----------------------------------------------------------------
   Data model.
   ---------------------------------------------------------------- -/

/-- A page-coordinate rectangle, or a raw four-tuple as stored by the
code: the raster strategy stores (left, top, width, height) pixel values
in the four slots. -/
structure Rect4 where
  x0 : ℚ
  y0 : ℚ
  x1 : ℚ
  y1 : ℚ
deriving DecidableEq

/-- Width of a non-degenerate rectangle, as pymupdf reports it. -/
def rectWidth (r : Rect4) : ℚ := r.x1 - r.x0

/-- Height of a non-degenerate rectangle, as pymupdf reports it. -/
def rectHeight (r : Rect4) : ℚ := r.y1 - r.y0

/-- One detected glyph record, the sigil_meta dictionary of the source. -/
structure SigilMeta where
  image_path : String
  parent_entry_heading : String
  page_number : Nat
  source_text : String
  bounding_box_pdf_coords : Rect4
  extraction_method : String
deriving DecidableEq

/-- One finalized dictionary record; the source key "class" is modelled by
the field classTag. -/
structure Entry where
  heading : String
  classTag : String
  description : String
  references_raw : List String
  sigils_metadata : List SigilMeta
  page_number : Nat
deriving DecidableEq

/-- The partially built current entry of the segmenter, still carrying its
description fragments. -/
structure OpenEntry where
  heading : String
  classTag : String
  description_parts : List String
  sigils_metadata : List SigilMeta
  page_number : Nat
deriving DecidableEq

/- ----------------------------------------------------------------
   The sigil image store (source lines 401 to 412).
   ---------------------------------------------------------------- -/

/-- Decimal digit character for a value below ten. -/
def digitCharOf (n : Nat) : Char :=
  match n with
  | 0 => '0'
  | 1 => '1'
  | 2 => '2'
  | 3 => '3'
  | 4 => '4'
  | 5 => '5'
  | 6 => '6'
  | 7 => '7'
  | 8 => '8'
  | _ => '9'

/-- Decimal representation with explicit fuel, most significant digit first. -/
def decReprAux : Nat → Nat → List Char
  | 0, _ => []
  | fuel + 1, n =>
    if n < 10 then [digitCharOf n]
    else decReprAux fuel (n / 10) ++ [digitCharOf (n % 10)]

/-- Decimal representation of a natural number, as a Python f-string
renders it. -/
def decRepr (n : Nat) : List Char := decReprAux (n + 1) n

/-- Characters kept by the heading sanitizer: word characters, hyphen,
period, space (source line 404). -/
def isFileKeepChar (c : Char) : Bool :=
  c.isAlphanum || c == '_' || c == '-' || c == '.' || c == ' '

/-- re.sub replacing every other character with an underscore, over the
first thirty characters of the heading. -/
def cleanHeadingChars (h : String) : List Char :=
  (h.toList.take 30).map (fun c => if isFileKeepChar c then c else '_')

/-- The stem of a sigil image filename, before the png extension. -/
def sigilFilenameChars (heading : String) (pn idn : Nat) : List Char :=
  "sigil_".toList ++ cleanHeadingChars heading ++ "_p".toList ++ decRepr pn
    ++ "_id".toList ++ decRepr idn

/-- The full sigil image filename. -/
def sigilFilename (heading : String) (pn idn : Nat) : String :=
  String.mk (sigilFilenameChars heading pn idn ++ ".png".toList)

/-- The stored path of a sigil image, inside the fixed output directory. -/
def sigilPath (heading : String) (pn idn : Nat) : String :=
  String.mk ("extracted_sigil_images/".toList
    ++ sigilFilenameChars heading pn idn ++ ".png".toList)

/-- The save operation: the counter is incremented before anything else,
the filename uses the new counter value, and renderOk abstracts whether
the rendered crop is non-empty and the write succeeds.  Returns the new
counter and the stored path, if any (source lines 401 to 412). -/
def saveSigilImage (renderOk : Rect4 → Bool) (counter : Nat) (bbox : Rect4)
    (heading : String) (pn : Nat) : Nat × Option String :=
  (counter + 1, if renderOk bbox then some (sigilPath heading pn (counter + 1)) else none)

/- ----------------------------------------------------------------
   The entry segmenter: the line loop shared verbatim by both extraction
   strategies (source lines 474 to 493 and 521 to 540).
   ---------------------------------------------------------------- -/

/-- The first description fragment: the trailing text of a heading line
after the matched prefix, stripped, kept only when non-empty. -/
def seedParts (rest : List Char) : List String :=
  let r := stripChars rest
  if r.isEmpty then [] else [String.mk r]

/-- Finalization of the current entry: fragments joined with single
spaces and stripped, references extracted from the final description. -/
def finalizeEntry (oe : OpenEntry) : Entry :=
  let desc := pyStrip (joinSpace oe.description_parts)
  { heading := oe.heading, classTag := oe.classTag, description := desc,
    references_raw := biblioRefsRaw desc, sigils_metadata := oe.sigils_metadata,
    page_number := oe.page_number }

/-- One line of the segmenter loop: strip, skip empty lines, open a new
entry on a heading match (finalizing the previous one), otherwise append
the line to the open entry's fragments or drop it. -/
def processLine (pn : Nat) (st : List Entry × Option OpenEntry) (lineRaw : List Char) :
    List Entry × Option OpenEntry :=
  let line := stripChars lineRaw
  if line.isEmpty then st
  else
    match headingClassMatch line with
    | some (g1, _, g2, rest) =>
      let es :=
        match st.2 with
        | some oe => st.1 ++ [finalizeEntry oe]
        | none => st.1
      (es, some { heading := String.mk (stripChars g1), classTag := String.mk (stripChars g2),
                  description_parts := seedParts rest, sigils_metadata := [],
                  page_number := pn })
    | none =>
      match st.2 with
      | some oe =>
        (st.1, some { oe with description_parts := oe.description_parts ++ [String.mk line] })
      | none => st

/-- The whole line loop of a page. -/
def plumberLineFold (pn : Nat) (lines : List (List Char)) : List Entry × Option OpenEntry :=
  lines.foldl (processLine pn) ([], none)

/-- Finalization of the still-open entry at the end of a fold state. -/
def closeFold (st : List Entry × Option OpenEntry) : List Entry :=
  st.1 ++ (match st.2 with | some oe => [finalizeEntry oe] | none => [])

/-- The line loop followed by finalization of the last open entry. -/
def parsePageLines (pn : Nat) (lines : List (List Char)) : List Entry :=
  closeFold (plumberLineFold pn lines)

/- ----------------------------------------------------------------
   Visual annotations.
   ---------------------------------------------------------------- -/

/-- The annotation kinds drawn on the page preview. -/
inductive VKind
  | text_block
  | heading
  | biblio_ref
  | potential_symbol
  | saved_sigil
deriving DecidableEq

/-- One visual annotation record. -/
structure VisualElem where
  rect : Rect4
  kind : VKind
  snippet : String
deriving DecidableEq

/-- Deduplication on the bounding-box tuple, keeping first occurrences
(source lines 561 to 564). -/
def dedupByRect : List VisualElem → List Rect4 → List VisualElem
  | [], _ => []
  | v :: rest, seen =>
    if seen.contains v.rect then dedupByRect rest seen
    else v :: dedupByRect rest (v.rect :: seen)

/- ----------------------------------------------------------------
   Vector (pdfplumber) extraction strategy (source lines 515 to 565).
   ---------------------------------------------------------------- -/

/-- One pdfplumber line object as the code reads it: a text and a box. -/
structure PLine where
  text : String
  rect : Rect4
deriving DecidableEq

/-- One pdfplumber word object. -/
structure WordInfo where
  text : String
  rect : Rect4
deriving DecidableEq

/-- One pdfplumber character object. -/
structure CharInfo where
  text : String
  x0 : ℚ
  top : ℚ
  x1 : ℚ
  bottom : ℚ
deriving DecidableEq

/-- COMMON_PUNCTUATION exactly as listed on source line 48; note that it
contains the hyphen and the slash. -/
def COMMON_PUNCTUATION : List String :=
  [".", ",", ";", ":", "(", ")", "'", "\"", "[", "]", "!", "?", "-", "/"]

/-- Python str.isalnum restricted to ASCII. -/
def pyIsAlnumStr (t : String) : Bool :=
  !t.toList.isEmpty && t.toList.all Char.isAlphanum

/-- Python str.isspace restricted to ASCII. -/
def pyIsSpaceStr (t : String) : Bool :=
  !t.toList.isEmpty && t.toList.all isSpaceRe

/-- Vector-strategy candidate test, source line 543: a single character,
not alphanumeric, not in COMMON_PUNCTUATION, not whitespace. -/
def isVectorCandidate (t : String) : Bool :=
  decide (t.toList.length = 1) && !pyIsAlnumStr t
    && !COMMON_PUNCTUATION.contains t && !pyIsSpaceStr t

/-- The vector rule as the spec words it, with hyphen and slash excluded
from the punctuation set; kept for comparison with the source. -/
def specVectorCandidate (t : String) : Bool :=
  decide (t.toList.length = 1) && !pyIsAlnumStr t
    && !([".", ",", ";", ":", "(", ")", "'", "\"", "[", "]", "!", "?"] : List String).contains t
    && !pyIsSpaceStr t

/-- The page-coordinate box of a pdfplumber character. -/
def charRect (ci : CharInfo) : Rect4 := ⟨ci.x0, ci.top, ci.x1, ci.bottom⟩

/-- Padding of one unit on each side (source line 546). -/
def padRect (r : Rect4) : Rect4 := ⟨r.x0 - 1, r.y0 - 1, r.x1 + 1, r.y1 + 1⟩

/-- Geometric rejection of a padded candidate box (source line 547): the
box leaves the page, or is wider than half the page, or taller than fifty
units. -/
def rejectPadded (r : Rect4) (pageW pageH : ℚ) : Bool :=
  decide (r.x0 < 0 ∨ r.y0 < 0 ∨ r.x1 > pageW ∨ r.y1 > pageH ∨
    rectWidth r > pageW / 2 ∨ rectHeight r > 50)

/-- State threaded through the vector character loop. -/
structure CharScanState where
  counter : Nat
  current : Option OpenEntry
  visuals : List VisualElem
deriving DecidableEq

/-- One step of the vector character loop (source lines 541 to 553): a
candidate character is dropped when no entry is open or when the padded
box is rejected; otherwise a save is attempted and, only on success, a
metadata record is appended to the open entry. -/
def processVectorChar (renderOk : Rect4 → Bool) (pageW pageH : ℚ) (pn : Nat)
    (st : CharScanState) (ci : CharInfo) : CharScanState :=
  if isVectorCandidate ci.text then
    match st.current with
    | none => st
    | some oe =>
      let pb := padRect (charRect ci)
      if rejectPadded pb pageW pageH then st
      else
        match saveSigilImage renderOk st.counter pb oe.heading pn with
        | (c1, some p) =>
          { counter := c1,
            current := some { oe with sigils_metadata := oe.sigils_metadata ++
              [{ image_path := p, parent_entry_heading := oe.heading, page_number := pn,
                 source_text := ci.text, bounding_box_pdf_coords := pb,
                 extraction_method := "direct" }] },
            visuals := st.visuals ++ [{ rect := charRect ci, kind := .saved_sigil,
                                        snippet := ci.text }] }
        | (c1, none) =>
          { counter := c1, current := st.current,
            visuals := st.visuals ++ [{ rect := charRect ci, kind := .potential_symbol,
                                        snippet := ci.text }] }
  else st

/-- The text-block and heading annotations produced while scanning one
line (source lines 524 to 527 and 539). -/
def lineVisualsFor (plines : List PLine) (lineRaw : List Char) : List VisualElem :=
  let line := stripChars lineRaw
  if line.isEmpty then []
  else
    match plines.find? (fun p => isSubstrOf line p.text.toList) with
    | none => []
    | some p =>
      let base : List VisualElem :=
        [{ rect := p.rect, kind := .text_block, snippet := String.mk (line.take 30) }]
      match headingClassMatch line with
      | some (g1, _, _, _) =>
        base ++ [{ rect := p.rect, kind := .heading, snippet := String.mk (stripChars g1) }]
      | none => base

/-- The visual annotation list of the vector strategy before
deduplication: line annotations, then character annotations, then
bibliography word annotations. -/
def plumberVisualsRaw (renderOk : Rect4 → Bool) (pageW pageH : ℚ) (pn : Nat)
    (pageText : String) (plines : List PLine) (chars : List CharInfo)
    (words : List WordInfo) (counter0 : Nat) : List VisualElem :=
  let lines := splitNl pageText.toList
  let lf := plumberLineFold pn lines
  let cs := chars.foldl (processVectorChar renderOk pageW pageH pn)
    { counter := counter0, current := lf.2, visuals := [] }
  concatMap (lineVisualsFor plines) lines ++ cs.visuals
    ++ words.filterMap (fun w =>
      if biblioSearch w.text then
        some ({ rect := w.rect, kind := .biblio_ref, snippet := w.text } : VisualElem)
      else none)

/-- The vector extraction strategy for one page (source lines 515 to
565): line parsing, the character loop over the still-open last entry,
bibliography word annotations, finalization, and deduplication of the
visual annotations.  An empty text layer returns immediately. -/
def extractElementsFromPlumberPage (renderOk : Rect4 → Bool) (pageW pageH : ℚ) (pn : Nat)
    (pageText : String) (plines : List PLine) (chars : List CharInfo)
    (words : List WordInfo) (counter0 : Nat) : List Entry × List VisualElem × Nat :=
  if pageText = "" then ([], [], counter0)
  else
    let lines := splitNl pageText.toList
    let lf := plumberLineFold pn lines
    let cs := chars.foldl (processVectorChar renderOk pageW pageH pn)
      { counter := counter0, current := lf.2, visuals := [] }
    (lf.1 ++ (match cs.current with | some oe => [finalizeEntry oe] | none => []),
     dedupByRect (plumberVisualsRaw renderOk pageW pageH pn pageText plines chars words counter0) [],
     cs.counter)

/- ----------------------------------------------------------------
   Raster (OCR) extraction strategy (source lines 459 to 513).
   ---------------------------------------------------------------- -/

/-- One OCR data row: textStr is the str() of the text cell, isna records
a missing cell, the geometry is in pixels at the preview zoom. -/
structure OcrToken where
  textStr : String
  isna : Bool
  conf : Int
  block_num : Nat
  line_num : Nat
  left : Int
  top : Int
  width : Int
  height : Int
deriving DecidableEq

/-- The word class of the regex, ASCII: alphanumerics and underscore. -/
def isWordChar (c : Char) : Bool := c.isAlphanum || c == '_'

/-- The punctuation characters excluded by POTENTIAL_SYMBOL_RE_OCR
(source line 47); the hyphen and the slash are not among them. -/
def ocrPunct : List Char :=
  ['.', ',', ';', ':', '\'', '"', '(', ')', '[', ']', '?', '!']

/-- Full match of POTENTIAL_SYMBOL_RE_OCR: one to five characters, none
of them whitespace, word characters, or listed punctuation. -/
def isOcrSymbolCandidate (t : String) : Bool :=
  decide (1 ≤ t.toList.length ∧ t.toList.length ≤ 5)
    && t.toList.all (fun c => !isSpaceRe c && !isWordChar c && !ocrPunct.contains c)

/-- The line reconstruction of the OCR strategy (source lines 466 to
473): words are grouped by (block, line) key and joined with single
spaces, each word stripped. -/
def groupOcrAux (last : Option (Nat × Nat)) (cur : List String) :
    List OcrToken → List String
  | [] => if cur.isEmpty then [] else [joinSpace cur]
  | t :: ts =>
    if some (t.block_num, t.line_num) = last then
      groupOcrAux last (cur ++ [pyStrip t.textStr]) ts
    else
      (if cur.isEmpty then [] else [joinSpace cur])
        ++ groupOcrAux (some (t.block_num, t.line_num)) [pyStrip t.textStr] ts

/-- The reconstructed lines of the OCR token stream. -/
def groupOcrLines (toks : List OcrToken) : List String := groupOcrAux none [] toks

/-- Index of the last element satisfying the test, modelling next over the
reversed entry list (source line 505). -/
def findLastIdxP {α : Type} (p : α → Bool) : List α → Option Nat
  | [] => none
  | a :: t =>
    match findLastIdxP p t with
    | some i => some (i + 1)
    | none => if p a then some 0 else none

/-- State threaded through the OCR token loop. -/
structure OcrScanState where
  entries : List Entry
  counter : Nat
  visuals : List VisualElem
deriving DecidableEq

/-- The symbol-attachment part of the OCR token loop (source lines 505
to 510): find the most recently finalized entry of the page, attempt the
save, and only on success append the metadata to that entry; without an
entry for the page the glyph is dropped with only a potential-symbol
annotation and no metadata. -/
def ocrAttachSigil (renderOk : Rect4 → Bool) (pn : Nat) (st : OcrScanState)
    (text : String) (pixRect pdfRect : Rect4) : OcrScanState :=
  match findLastIdxP (fun e => e.page_number == pn) st.entries with
  | none =>
    { st with visuals := st.visuals ++
        [{ rect := pixRect, kind := .potential_symbol, snippet := text }] }
  | some i =>
    match st.entries[i]? with
    | none => st
    | some e =>
      match saveSigilImage renderOk st.counter pdfRect e.heading pn with
      | (c1, some p) =>
        { entries := st.entries.set i { e with sigils_metadata := e.sigils_metadata ++
            [{ image_path := p, parent_entry_heading := e.heading, page_number := pn,
               source_text := text, bounding_box_pdf_coords := pdfRect,
               extraction_method := "ocr" }] },
          counter := c1,
          visuals := st.visuals ++ [{ rect := pixRect, kind := .saved_sigil, snippet := text }] }
      | (c1, none) =>
        { st with
          counter := c1,
          visuals := st.visuals ++
            [{ rect := pixRect, kind := .potential_symbol, snippet := text }] }

/-- One step of the OCR token loop (source lines 494 to 511).  The stored
visual rectangle is the raw (left, top, width, height) pixel tuple; the
metadata box is the pixel box divided by the zoom pair.  A symbol token
goes through ocrAttachSigil; every other non-skipped token only appends
an annotation. -/
def ocrTokenStep (renderOk : Rect4 → Bool) (zx zy : ℚ) (pn : Nat)
    (st : OcrScanState) (t : OcrToken) : OcrScanState :=
  if t.isna = true ∨ pyStrip t.textStr = "" then st
  else
    let text := pyStrip t.textStr
    let pixRect : Rect4 := ⟨(t.left : ℚ), (t.top : ℚ), (t.width : ℚ), (t.height : ℚ)⟩
    let pdfRect : Rect4 :=
      ⟨(t.left : ℚ) / zx, (t.top : ℚ) / zy,
       ((t.left + t.width : Int) : ℚ) / zx, ((t.top + t.height : Int) : ℚ) / zy⟩
    if st.entries.any (fun e => e.page_number == pn && isSubstrOf text.toList e.heading.toList) then
      { st with visuals := st.visuals ++ [{ rect := pixRect, kind := .heading, snippet := text }] }
    else if biblioSearch text then
      { st with visuals := st.visuals ++ [{ rect := pixRect, kind := .biblio_ref, snippet := text }] }
    else if isOcrSymbolCandidate text then
      ocrAttachSigil renderOk pn st text pixRect pdfRect
    else
      { st with visuals := st.visuals ++ [{ rect := pixRect, kind := .text_block, snippet := text }] }

/-- The raster extraction strategy for one page (source lines 459 to
513): confidence filtering, line reconstruction, the shared line loop with
immediate finalization, then the token annotation loop.  The visual list
is returned without deduplication. -/
def extractElementsWithOcr (renderOk : Rect4 → Bool) (zx zy : ℚ) (pn : Nat)
    (toks : List OcrToken) (counter0 : Nat) : List Entry × List VisualElem × Nat :=
  let toksF := toks.filter (fun t => decide ((-1 : Int) < t.conf))
  let entries0 := parsePageLines pn ((groupOcrLines toksF).map String.toList)
  let fin := toksF.foldl (ocrTokenStep renderOk zx zy pn)
    { entries := entries0, counter := counter0, visuals := [] }
  (fin.entries, fin.visuals, fin.counter)

/- ----------------------------------------------------------------
   Similarity search (source lines 647 to 671).
   ---------------------------------------------------------------- -/

/-- One ranked match of the similarity search. -/
structure MatchResult where
  distance : Nat
  sigil_meta : SigilMeta
  parent_entry : Entry
deriving DecidableEq

/-- Hamming distance between two hash bit vectors, the subtraction
operator of the imagehash library. -/
def hashHamming (a b : List Bool) : Nat :=
  ((a.zip b).filter (fun p => p.1 != p.2)).length

/-- The body of the match collection loop for one sigil of one entry
(source lines 661 to 668): skip when the image is missing on disk or
fails to hash, otherwise build a MatchResult with the Hamming distance. -/
def matchOf (onDisk : String → Bool) (hashOf : String → Option (List Bool))
    (q : List Bool) (e : Entry) (s : SigilMeta) : Option MatchResult :=
  if onDisk s.image_path then
    match hashOf s.image_path with
    | some h =>
      some ({ distance := hashHamming q h, sigil_meta := s, parent_entry := e } : MatchResult)
    | none => none
  else none

/-- A corpus sigil that will contribute a MatchResult: its image exists
on disk and hashes successfully. -/
def okSigil (onDisk : String → Bool) (hashOf : String → Option (List Bool))
    (s : SigilMeta) : Bool :=
  onDisk s.image_path && (hashOf s.image_path).isSome

/-- The match collection loop (source lines 659 to 668): one MatchResult
per corpus sigil whose image exists on disk and hashes successfully, in
corpus iteration order; failing entries are skipped. -/
def collectMatches (onDisk : String → Bool) (hashOf : String → Option (List Bool))
    (q : List Bool) (corpus : List Entry) : List MatchResult :=
  concatMap (fun e => e.sigils_metadata.filterMap (matchOf onDisk hashOf q e)) corpus

/-- Ordered insertion before the first element of larger or equal
distance never jumps an equal-distance element, so the sort is stable. -/
def insertByDist (a : MatchResult) : List MatchResult → List MatchResult
  | [] => [a]
  | b :: l => if a.distance ≤ b.distance then a :: b :: l else b :: insertByDist a l

/-- Stable ascending sort by distance: the behaviour of list.sort with a
distance key (source line 669). -/
def sortByDist : List MatchResult → List MatchResult
  | [] => []
  | a :: l => insertByDist a (sortByDist l)

/-- The collection, stable sort and truncation to ten results of
search_drawn_sigil_action (source lines 659 to 671). -/
def searchMatches (onDisk : String → Bool) (hashOf : String → Option (List Bool))
    (q : List Bool) (corpus : List Entry) : List MatchResult :=
  (sortByDist (collectMatches onDisk hashOf q corpus)).take 10

/-- The drawn query image as the guard code observes it: getcolors with a
limit of one (some value exactly when the image is uniform), and the
perceptual hash the library would compute. -/
structure DrawnImage where
  colors1 : Option (Nat × (Nat × Nat × Nat))
  phash : Option (List Bool)
deriving DecidableEq

/-- The observable outcomes of search_drawn_sigil_action. -/
inductive SearchOutcome
  | dataNotLoaded
  | attributeError
  | emptyCanvasMessage
  | hashingError
  | results (l : List MatchResult)
deriving DecidableEq

/-- search_drawn_sigil_action (source lines 647 to 671) after the data
load: an empty loaded dataset is reported as not loaded; for a uniform
image the guard on line 654 evaluates Image.Color, an attribute the PIL
Image module does not have, so an AttributeError escapes before the
intended empty-canvas message, before hashing and before any corpus work;
otherwise the query is hashed and the matches are collected. -/
def searchDrawnSigilAction (onDisk : String → Bool)
    (hashOf : String → Option (List Bool)) (img : DrawnImage)
    (corpus : List Entry) : SearchOutcome :=
  if corpus.isEmpty then .dataNotLoaded
  else
    match img.colors1 with
    | some _ => .attributeError
    | none =>
      match img.phash with
      | none => .hashingError
      | some q => .results (searchMatches onDisk hashOf q corpus)

/-- Shape of the classification tag captured by group 2: a capital, one
to three lowercase letters, a period. -/
def tagShape (g2 : List Char) : Prop :=
  ∃ cu mid, g2 = cu :: (mid ++ ['.']) ∧ cu.isUpper = true ∧
    (∀ c ∈ mid, c.isLower = true) ∧ 1 ≤ mid.length ∧ mid.length ≤ 3

/-- Decimal parsing, the left inverse of decRepr used to prove it
injective. -/
def parseDec (l : List Char) : Nat :=
  l.foldl (fun a c => 10 * a + (c.toNat - 48)) 0

/-- A sequence of save attempts within one scan: each call threads the
counter through saveSigilImage; the result records, per attempt, the id
used (the counter value after the increment) and the stored path if the
save succeeded. -/
def runSaves (renderOk : Rect4 → Bool) :
    Nat → List (Rect4 × String × Nat) → Nat × List (Nat × Option String)
  | c0, [] => (c0, [])
  | c0, (b, h, p) :: rest =>
    let r := saveSigilImage renderOk c0 b h p
    let fin := runSaves renderOk r.1 rest
    (fin.1, (r.1, r.2) :: fin.2)

/-- The segmenter-visible core of an open entry: everything except its
sigil list. -/
def openCore (oe : OpenEntry) : String × String × List String × Nat :=
  (oe.heading, oe.classTag, oe.description_parts, oe.page_number)

/-- The attachment property of one finalized entry: it carries the page's
number and every one of its sigils carries that page number and the
entry's own heading as parent. -/
def entryAttached (pn : Nat) (e : Entry) : Prop :=
  e.page_number = pn ∧
    ∀ m ∈ e.sigils_metadata, m.page_number = pn ∧ m.parent_entry_heading = e.heading

/- ================================================================
   Helper lemmas about the segmenter, and the claim-side fragment view
   of the description of each entry.
   ================================================================ -/

/-- Fragments accumulated by the open entry, then one fragment list per
further heading of the line sequence. -/
def fragsAux (cur : List String) : List (List Char) → List (List String)
  | [] => [cur]
  | l :: ls =>
    let t := stripChars l
    if t.isEmpty then fragsAux cur ls
    else
      match headingClassMatch t with
      | some (_, _, _, rest) => cur :: fragsAux (seedParts rest) ls
      | none => fragsAux (cur ++ [String.mk t]) ls

/-- One description-fragment list per entry of the line sequence: the
trailing text of each heading line followed by the non-heading lines up
to the next heading, order preserved. -/
def fragmentsOf : List (List Char) → List (List String)
  | [] => []
  | l :: ls =>
    let t := stripChars l
    if t.isEmpty then fragmentsOf ls
    else
      match headingClassMatch t with
      | some (_, _, _, rest) => fragsAux (seedParts rest) ls
      | none => fragmentsOf ls

theorem processLine_empty (pn : Nat) (st : List Entry × Option OpenEntry) (l : List Char)
    (h : (stripChars l).isEmpty = true) : processLine pn st l = st := by
  simp [processLine, h]

theorem processLine_heading (pn : Nat) (st : List Entry × Option OpenEntry)
    (l g1 ws g2 rest : List Char)
    (h : (stripChars l).isEmpty = false)
    (hm : headingClassMatch (stripChars l) = some (g1, ws, g2, rest)) :
    processLine pn st l =
      ((match st.2 with
        | some oe => st.1 ++ [finalizeEntry oe]
        | none => st.1),
       some { heading := String.mk (stripChars g1), classTag := String.mk (stripChars g2),
              description_parts := seedParts rest, sigils_metadata := [],
              page_number := pn }) := by
  simp [processLine, h, hm]

theorem processLine_body (pn : Nat) (es : List Entry) (oe : OpenEntry) (l : List Char)
    (h : (stripChars l).isEmpty = false)
    (hm : headingClassMatch (stripChars l) = none) :
    processLine pn (es, some oe) l =
      (es, some { oe with
                  description_parts := oe.description_parts ++ [String.mk (stripChars l)] }) := by
  simp [processLine, h, hm]

theorem processLine_drop (pn : Nat) (es : List Entry) (l : List Char)
    (h : (stripChars l).isEmpty = false)
    (hm : headingClassMatch (stripChars l) = none) :
    processLine pn (es, none) l = (es, none) := by
  simp [processLine, h, hm]

theorem finalizeEntry_description (oe : OpenEntry) :
    (finalizeEntry oe).description = pyStrip (joinSpace oe.description_parts) := rfl

theorem closeFold_foldl_open (pn : Nat) :
    ∀ (ls : List (List Char)) (es : List Entry) (oe : OpenEntry),
      (closeFold (List.foldl (processLine pn) (es, some oe) ls)).map Entry.description
        = es.map Entry.description
          ++ (fragsAux oe.description_parts ls).map (fun ps => pyStrip (joinSpace ps)) := by
  intro ls
  induction ls with
  | nil =>
    intro es oe
    simp [closeFold, fragsAux, finalizeEntry_description]
  | cons l ls ih =>
    intro es oe
    rw [List.foldl_cons]
    cases hemp : (stripChars l).isEmpty with
    | true =>
      rw [processLine_empty pn _ l hemp, ih es oe]
      simp [fragsAux, hemp]
    | false =>
      cases hm : headingClassMatch (stripChars l) with
      | some q =>
        obtain ⟨g1, ws, g2, rest⟩ := q
        rw [processLine_heading pn _ l g1 ws g2 rest hemp hm]
        rw [ih]
        simp [fragsAux, hemp, hm, finalizeEntry_description]
      | none =>
        rw [processLine_body pn es oe l hemp hm, ih]
        simp [fragsAux, hemp, hm]

theorem parsePageLines_descriptions (pn : Nat) :
    ∀ (lines : List (List Char)),
      (parsePageLines pn lines).map Entry.description
        = (fragmentsOf lines).map (fun ps => pyStrip (joinSpace ps)) := by
  intro lines
  induction lines with
  | nil => simp [parsePageLines, plumberLineFold, closeFold, fragmentsOf]
  | cons l ls ih =>
    simp only [parsePageLines, plumberLineFold, List.foldl_cons] at *
    cases hemp : (stripChars l).isEmpty with
    | true =>
      rw [processLine_empty pn _ l hemp]
      simpa [fragmentsOf, hemp] using ih
    | false =>
      cases hm : headingClassMatch (stripChars l) with
      | some q =>
        obtain ⟨g1, ws, g2, rest⟩ := q
        rw [processLine_heading pn _ l g1 ws g2 rest hemp hm]
        rw [closeFold_foldl_open pn ls]
        simp [fragmentsOf, hemp, hm]
      | none =>
        rw [processLine_drop pn _ l hemp hm]
        simpa [fragmentsOf, hemp, hm] using ih

/-- C7: the single input line about ABRACADABRA yields exactly one Entry
with heading ABRACADABRA, classification Sym., the stated description,
and the single reference Agrippa 1533. -/
theorem c7_abracadabra_scenario :
    extractElementsFromPlumberPage (fun _ => true) 500 700 1
      "ABRACADABRA Sym. A mystical word of power. Agrippa 1533." [] [] [] 0 =
    ([{ heading := "ABRACADABRA", classTag := "Sym.",
        description := "A mystical word of power. Agrippa 1533.",
        references_raw := ["Agrippa 1533"], sigils_metadata := [], page_number := 1 }],
     [], 0) := by decide

/-- C8: the three-line page yields the FOO and BAR entries with the
stated joined descriptions, both on the page's number; and in general the
description list of a parsed page equals the per-entry fragment lists
(trailing heading text then following non-heading lines) joined with
single spaces and trimmed, order preserved. -/
theorem c8_description_joining :
    (extractElementsFromPlumberPage (fun _ => true) 500 700 7
        "FOO Abc. first line\nsecond line\nBAR Def. third line" [] [] [] 0).1
      = [{ heading := "FOO", classTag := "Abc.", description := "first line second line",
           references_raw := [], sigils_metadata := [], page_number := 7 },
         { heading := "BAR", classTag := "Def.", description := "third line",
           references_raw := [], sigils_metadata := [], page_number := 7 }] ∧
    ∀ (pn : Nat) (lines : List (List Char)),
      (parsePageLines pn lines).map Entry.description
        = (fragmentsOf lines).map (fun ps => pyStrip (joinSpace ps)) :=
  ⟨by decide, parsePageLines_descriptions⟩


/- ================================================================
   Soundness of the heading matcher: what a successful match tells about
   the shape and character classes of the captured groups.
   ================================================================ -/

theorem takeLowerDot_sound :
    ∀ (n : Nat) (l t r : List Char), takeLowerDot n l = some (t, r) →
      l = t ++ r ∧ ∃ mid, t = mid ++ ['.'] ∧ mid.length = n ∧ ∀ c ∈ mid, c.isLower = true := by
  intro n
  induction n with
  | zero =>
    intro l t r h
    cases l with
    | nil => simp [takeLowerDot] at h
    | cons c cl =>
      simp only [takeLowerDot] at h
      by_cases hc : c == '.'
      · rw [if_pos hc] at h
        simp only [Option.some.injEq, Prod.mk.injEq] at h
        obtain ⟨rfl, rfl⟩ := h
        refine ⟨rfl, [], ?_, rfl, by simp⟩
        simp [eq_of_beq hc]
      · rw [if_neg hc] at h
        exact absurd h (by simp)
  | succ n ih =>
    intro l t r h
    cases l with
    | nil => simp [takeLowerDot] at h
    | cons c cl =>
      simp only [takeLowerDot] at h
      by_cases hlow : c.isLower
      · rw [if_pos hlow] at h
        cases htl : takeLowerDot n cl with
        | none => rw [htl] at h; exact absurd h (by simp)
        | some p =>
          obtain ⟨t1, r1⟩ := p
          rw [htl] at h
          simp only [Option.some.injEq, Prod.mk.injEq] at h
          obtain ⟨rfl, rfl⟩ := h
          obtain ⟨heq, mid, hmid, hlen, hall⟩ := ih cl t1 r1 htl
          refine ⟨by rw [heq]; rfl, c :: mid, by rw [hmid]; rfl, by simp [hlen], ?_⟩
          intro x hx
          rcases List.mem_cons.mp hx with rfl | hx
          · exact hlow
          · exact hall x hx
      · rw [if_neg hlow] at h
        exact absurd h (by simp)

theorem matchClassTag_sound :
    ∀ (l g2 r : List Char), matchClassTag l = some (g2, r) →
      l = g2 ++ r ∧ tagShape g2 := by
  intro l g2 r h
  cases l with
  | nil => simp [matchClassTag] at h
  | cons c cl =>
    simp only [matchClassTag] at h
    by_cases hup : c.isUpper
    · rw [if_pos hup] at h
      have main : ∀ (n : Nat) (t1 r1 : List Char), takeLowerDot n cl = some (t1, r1) →
          1 ≤ n → n ≤ 3 → c :: cl = (c :: t1) ++ r1 ∧ tagShape (c :: t1) := by
        intro n t1 r1 htl h1 h3
        obtain ⟨heq, mid, hmid, hlen, hall⟩ := takeLowerDot_sound n cl t1 r1 htl
        constructor
        · rw [heq]; rfl
        · exact ⟨c, mid, by rw [hmid], hup, hall, by omega, by omega⟩
      cases h3 : takeLowerDot 3 cl with
      | some p =>
        obtain ⟨t1, r1⟩ := p
        rw [h3] at h
        simp only [Option.some.injEq, Prod.mk.injEq] at h
        obtain ⟨rfl, rfl⟩ := h
        exact main 3 t1 r1 h3 (by omega) (by omega)
      | none =>
        rw [h3] at h
        cases h2 : takeLowerDot 2 cl with
        | some p =>
          obtain ⟨t1, r1⟩ := p
          rw [h2] at h
          simp only [Option.some.injEq, Prod.mk.injEq] at h
          obtain ⟨rfl, rfl⟩ := h
          exact main 2 t1 r1 h2 (by omega) (by omega)
        | none =>
          rw [h2] at h
          cases h1 : takeLowerDot 1 cl with
          | some p =>
            obtain ⟨t1, r1⟩ := p
            rw [h1] at h
            simp only [Option.some.injEq, Prod.mk.injEq] at h
            obtain ⟨rfl, rfl⟩ := h
            exact main 1 t1 r1 h1 (by omega) (by omega)
          | none => rw [h1] at h; exact absurd h (by simp)
    · rw [if_neg hup] at h
      exact absurd h (by simp)

theorem spacesThenTag_sound :
    ∀ (l ws g2 r : List Char), spacesThenTag l = some (ws, g2, r) →
      l = ws ++ g2 ++ r ∧ ws ≠ [] ∧ (∀ c ∈ ws, isSpaceRe c = true) ∧ tagShape g2 := by
  intro l
  induction l with
  | nil => intro ws g2 r h; simp [spacesThenTag] at h
  | cons c cl ih =>
    intro ws g2 r h
    simp only [spacesThenTag] at h
    by_cases hsp : isSpaceRe c
    · rw [if_pos hsp] at h
      cases hrec : spacesThenTag cl with
      | some p =>
        obtain ⟨ws1, g21, r1⟩ := p
        rw [hrec] at h
        simp only [Option.some.injEq, Prod.mk.injEq] at h
        obtain ⟨rfl, rfl, rfl⟩ := h
        obtain ⟨heq, hne, hall, hshape⟩ := ih ws1 g21 r1 hrec
        refine ⟨by rw [heq]; rfl, by simp, ?_, hshape⟩
        intro x hx
        rcases List.mem_cons.mp hx with rfl | hx
        · exact hsp
        · exact hall x hx
      | none =>
        rw [hrec] at h
        cases htag : matchClassTag cl with
        | some p =>
          obtain ⟨g21, r1⟩ := p
          rw [htag] at h
          simp only [Option.some.injEq, Prod.mk.injEq] at h
          obtain ⟨rfl, rfl, rfl⟩ := h
          obtain ⟨heq, hshape⟩ := matchClassTag_sound cl g21 r1 htag
          refine ⟨by rw [heq]; rfl, by simp, ?_, hshape⟩
          intro x hx
          rcases List.mem_cons.mp hx with rfl | hx
          · exact hsp
          · simp at hx
        | none => rw [htag] at h; exact absurd h (by simp)
    · rw [if_neg hsp] at h
      exact absurd h (by simp)

theorem headBodyLazy_sound (bodyOk : Char → Bool) :
    ∀ (l body ws g2 r : List Char), headBodyLazy bodyOk l = some (body, ws, g2, r) →
      l = body ++ ws ++ g2 ++ r ∧ body ≠ [] ∧ (∀ c ∈ body, bodyOk c = true) ∧
        ws ≠ [] ∧ (∀ c ∈ ws, isSpaceRe c = true) ∧ tagShape g2 := by
  intro l
  induction l with
  | nil => intro body ws g2 r h; simp [headBodyLazy] at h
  | cons c cl ih =>
    intro body ws g2 r h
    simp only [headBodyLazy] at h
    by_cases hb : bodyOk c
    · rw [if_pos hb] at h
      cases hst : spacesThenTag cl with
      | some p =>
        obtain ⟨ws1, g21, r1⟩ := p
        rw [hst] at h
        simp only [Option.some.injEq, Prod.mk.injEq] at h
        obtain ⟨rfl, rfl, rfl, rfl⟩ := h
        obtain ⟨heq, hwne, hwall, hshape⟩ := spacesThenTag_sound cl ws1 g21 r1 hst
        refine ⟨by rw [heq]; rfl, by simp, ?_, hwne, hwall, hshape⟩
        intro x hx
        rcases List.mem_cons.mp hx with rfl | hx
        · exact hb
        · simp at hx
      | none =>
        rw [hst] at h
        cases hrec : headBodyLazy bodyOk cl with
        | some p =>
          obtain ⟨b1, ws1, g21, r1⟩ := p
          rw [hrec] at h
          simp only [Option.some.injEq, Prod.mk.injEq] at h
          obtain ⟨rfl, rfl, rfl, rfl⟩ := h
          obtain ⟨heq, hbne, hball, hwne, hwall, hshape⟩ := ih b1 ws1 g21 r1 hrec
          refine ⟨by rw [heq]; rfl, by simp, ?_, hwne, hwall, hshape⟩
          intro x hx
          rcases List.mem_cons.mp hx with rfl | hx
          · exact hb
          · exact hball x hx
        | none => rw [hrec] at h; exact absurd h (by simp)
    · rw [if_neg hb] at h
      exact absurd h (by simp)

theorem headingMatchGen_sound (bodyOk : Char → Bool) :
    ∀ (l g1 ws g2 r : List Char), headingMatchGen bodyOk l = some (g1, ws, g2, r) →
      l = g1 ++ ws ++ g2 ++ r ∧
      (∃ c0 t, g1 = c0 :: t ∧ isHeadStart c0 = true ∧ t ≠ [] ∧ ∀ c ∈ t, bodyOk c = true) ∧
      ws ≠ [] ∧ (∀ c ∈ ws, isSpaceRe c = true) ∧ tagShape g2 := by
  intro l g1 ws g2 r h
  cases l with
  | nil => simp [headingMatchGen] at h
  | cons c cl =>
    simp only [headingMatchGen] at h
    by_cases hs : isHeadStart c
    · rw [if_pos hs] at h
      cases hb : headBodyLazy bodyOk cl with
      | some p =>
        obtain ⟨b1, ws1, g21, r1⟩ := p
        rw [hb] at h
        simp only [Option.some.injEq, Prod.mk.injEq] at h
        obtain ⟨rfl, rfl, rfl, rfl⟩ := h
        obtain ⟨heq, hbne, hball, hwne, hwall, hshape⟩ :=
          headBodyLazy_sound bodyOk cl b1 ws1 g21 r1 hb
        exact ⟨by rw [heq]; rfl, ⟨c, b1, rfl, hs, hbne, hball⟩, hwne, hwall, hshape⟩
      | none => rw [hb] at h; exact absurd h (by simp)
    · rw [if_neg hs] at h
      exact absurd h (by simp)

/-- C1 (amended): a line opens a new entry exactly when its prefix
matches HEADING_CLASS_RE as compiled in the source; group 1, trimmed,
becomes the heading and group 2 the classification tag; the run before
the tag admits uppercase letters, digits, whitespace, hyphen, comma and
the RIGHT SINGLE QUOTATION MARK U+2019 — not the ASCII apostrophe, which
the source pattern does not contain. -/
theorem c1_heading_rule :
    (∀ l g1 ws g2 rest, headingClassMatch l = some (g1, ws, g2, rest) →
        l = g1 ++ ws ++ g2 ++ rest ∧
        (∃ c0 t, g1 = c0 :: t ∧ isHeadStart c0 = true ∧ t ≠ [] ∧ ∀ c ∈ t, isHeadBody c = true) ∧
        ws ≠ [] ∧ (∀ c ∈ ws, isSpaceRe c = true) ∧ tagShape g2) ∧
    (∀ (pn : Nat) (st : List Entry × Option OpenEntry) (l g1 ws g2 rest : List Char),
        (stripChars l).isEmpty = false →
        headingClassMatch (stripChars l) = some (g1, ws, g2, rest) →
        processLine pn st l =
          ((match st.2 with
            | some oe => st.1 ++ [finalizeEntry oe]
            | none => st.1),
           some { heading := String.mk (stripChars g1), classTag := String.mk (stripChars g2),
                  description_parts := seedParts rest, sigils_metadata := [],
                  page_number := pn })) ∧
    (∀ (pn : Nat) (st : List Entry × Option OpenEntry) (l : List Char),
        (stripChars l).isEmpty = false → headingClassMatch (stripChars l) = none →
        (processLine pn st l).1 = st.1 ∧
        ((processLine pn st l).2).map (fun oe => (oe.heading, oe.classTag))
          = st.2.map (fun oe => (oe.heading, oe.classTag))) ∧
    headingClassMatch "AB’C De. tail".toList
      = some ("AB’C".toList, [' '], "De.".toList, " tail".toList) ∧
    headingClassMatch "AB'C De. tail".toList = none := by
  refine ⟨fun l g1 ws g2 rest h => headingMatchGen_sound isHeadBody l g1 ws g2 rest h,
    fun pn st l g1 ws g2 rest hemp hm => processLine_heading pn st l g1 ws g2 rest hemp hm,
    ?_, by decide, by decide⟩
  intro pn st l hemp hm
  obtain ⟨es, cur⟩ := st
  cases cur with
  | none => rw [processLine_drop pn es l hemp hm]; exact ⟨rfl, rfl⟩
  | some oe => rw [processLine_body pn es oe l hemp hm]; exact ⟨rfl, rfl⟩

/-- C1 witness: the soundness conjunct applied to a concrete match. -/
theorem c1_heading_rule_witness :
    "ABC De. x".toList = "ABC".toList ++ [' '] ++ "De.".toList ++ " x".toList :=
  (c1_heading_rule.1 "ABC De. x".toList "ABC".toList [' '] "De.".toList " x".toList
    (by decide)).1

/-- C1 counterexample: the claim states the heading run admits the ASCII
apostrophe.  On this line the pattern printed in the spec matches, with
heading group AB'C, yet the code's pattern does not match and the
segmenter drops the line without opening an entry. -/
theorem c1_apostrophe_counterexample :
    headingMatchSpec "AB'C De. tail".toList
      = some ("AB'C".toList, [' '], "De.".toList, " tail".toList) ∧
    headingClassMatch "AB'C De. tail".toList = none ∧
    processLine 3 ([], none) "AB'C De. tail".toList = ([], none) := by
  exact ⟨by decide, by decide, by decide⟩

/- ================================================================
   Lemmas about the similarity search.
   ================================================================ -/

theorem insertByDist_length (a : MatchResult) :
    ∀ l, (insertByDist a l).length = l.length + 1 := by
  intro l
  induction l with
  | nil => rfl
  | cons b t ih =>
    simp only [insertByDist]
    by_cases h : a.distance ≤ b.distance
    · rw [if_pos h]; rfl
    · rw [if_neg h]; simp [ih]

theorem sortByDist_length : ∀ l, (sortByDist l).length = l.length := by
  intro l
  induction l with
  | nil => rfl
  | cons a t ih => simp [sortByDist, insertByDist_length, ih]

theorem mem_insertByDist {x a : MatchResult} :
    ∀ {l : List MatchResult}, x ∈ insertByDist a l → x = a ∨ x ∈ l := by
  intro l
  induction l with
  | nil => intro h; simpa [insertByDist] using h
  | cons b t ih =>
    intro h
    simp only [insertByDist] at h
    by_cases hd : a.distance ≤ b.distance
    · rw [if_pos hd] at h
      rcases List.mem_cons.mp h with rfl | h2
      · exact Or.inl rfl
      · exact Or.inr h2
    · rw [if_neg hd] at h
      rcases List.mem_cons.mp h with rfl | h2
      · exact Or.inr (List.mem_cons_self _ _)
      · rcases ih h2 with rfl | h3
        · exact Or.inl rfl
        · exact Or.inr (List.mem_cons_of_mem _ h3)

theorem pairwise_insertByDist (a : MatchResult) :
    ∀ l, List.Pairwise (fun u v => u.distance ≤ v.distance) l →
      List.Pairwise (fun u v => u.distance ≤ v.distance) (insertByDist a l) := by
  intro l
  induction l with
  | nil => intro _; simp [insertByDist]
  | cons b t ih =>
    intro hp
    rcases List.pairwise_cons.mp hp with ⟨hb, ht⟩
    simp only [insertByDist]
    by_cases hd : a.distance ≤ b.distance
    · rw [if_pos hd]
      refine List.pairwise_cons.mpr ⟨?_, hp⟩
      intro x hx
      rcases List.mem_cons.mp hx with rfl | hx2
      · exact hd
      · exact le_trans hd (hb x hx2)
    · rw [if_neg hd]
      refine List.pairwise_cons.mpr ⟨?_, ih ht⟩
      intro x hx
      rcases mem_insertByDist hx with rfl | hx2
      · omega
      · exact hb x hx2

theorem sortByDist_sorted :
    ∀ l, List.Pairwise (fun u v => u.distance ≤ v.distance) (sortByDist l) := by
  intro l
  induction l with
  | nil => simp [sortByDist]
  | cons a t ih => exact pairwise_insertByDist a (sortByDist t) ih

theorem filter_insertByDist (a : MatchResult) (d : Nat) :
    ∀ l, (insertByDist a l).filter (fun m => m.distance == d)
      = if a.distance == d then a :: l.filter (fun m => m.distance == d)
        else l.filter (fun m => m.distance == d) := by
  intro l
  induction l with
  | nil =>
    by_cases h : a.distance = d
    · have hb : (a.distance == d) = true := by simpa using h
      simp [insertByDist, List.filter, hb, h]
    · have hb : (a.distance == d) = false := by simpa using h
      simp [insertByDist, List.filter, hb, h]
  | cons b t ih =>
    simp only [insertByDist]
    by_cases hd : a.distance ≤ b.distance
    · rw [if_pos hd]
      by_cases ha : a.distance == d
      · simp [List.filter, ha]
      · simp [List.filter, ha]
    · rw [if_neg hd]
      by_cases hb : b.distance == d
      · have hbd : b.distance = d := by simpa using hb
        have had : ¬ a.distance = d := by omega
        have ha : (a.distance == d) = false := by simpa using had
        simp [List.filter, hb, ih, ha]
      · have hb' : (b.distance == d) = false := by simpa using hb
        by_cases ha : a.distance == d
        · simp [List.filter, hb', ih, ha]
        · have ha' : (a.distance == d) = false := by simpa using ha
          simp [List.filter, hb', ih, ha']

theorem sortByDist_filter (d : Nat) :
    ∀ l, (sortByDist l).filter (fun m => m.distance == d)
      = l.filter (fun m => m.distance == d) := by
  intro l
  induction l with
  | nil => rfl
  | cons a t ih =>
    simp only [sortByDist]
    rw [filter_insertByDist a d (sortByDist t), ih]
    by_cases ha : a.distance == d
    · simp [List.filter, ha]
    · have ha' : (a.distance == d) = false := by simpa using ha
      simp [List.filter, ha']

theorem filterMap_matchOf_sigils (onDisk : String → Bool)
    (hashOf : String → Option (List Bool)) (q : List Bool) (e : Entry) :
    ∀ (sl : List SigilMeta),
      (sl.filterMap (matchOf onDisk hashOf q e)).map MatchResult.sigil_meta
        = sl.filter (okSigil onDisk hashOf) := by
  intro sl
  induction sl with
  | nil => rfl
  | cons s t ih =>
    simp only [List.filterMap_cons]
    by_cases hdisk : onDisk s.image_path
    · cases hh : hashOf s.image_path with
      | some hv =>
        have : matchOf onDisk hashOf q e s =
            some ({ distance := hashHamming q hv, sigil_meta := s, parent_entry := e }
              : MatchResult) := by
          simp [matchOf, hdisk, hh]
        rw [this]
        have hok : okSigil onDisk hashOf s = true := by simp [okSigil, hdisk, hh]
        simp [List.filter, hok, ih]
      | none =>
        have : matchOf onDisk hashOf q e s = none := by simp [matchOf, hdisk, hh]
        rw [this]
        have hok : okSigil onDisk hashOf s = false := by simp [okSigil, hdisk, hh]
        simp [List.filter, hok, ih]
    · have hdisk' : onDisk s.image_path = false := by simpa using hdisk
      have : matchOf onDisk hashOf q e s = none := by simp [matchOf, hdisk']
      rw [this]
      have hok : okSigil onDisk hashOf s = false := by simp [okSigil, hdisk']
      simp [List.filter, hok, ih]

theorem collectMatches_sigils (onDisk : String → Bool)
    (hashOf : String → Option (List Bool)) (q : List Bool) :
    ∀ (corpus : List Entry),
      (collectMatches onDisk hashOf q corpus).map MatchResult.sigil_meta
        = concatMap (fun e => e.sigils_metadata.filter (okSigil onDisk hashOf)) corpus := by
  intro corpus
  induction corpus with
  | nil => rfl
  | cons e t ih =>
    simp only [collectMatches, concatMap] at *
    rw [List.map_append, ih, filterMap_matchOf_sigils]

/-- C3: the search collects one MatchResult per corpus sigil whose image
exists on disk and hashes successfully, in corpus order; the result is
sorted ascending by Hamming distance; the sort is stable (the sublist at
each distance equals the collected sublist, so ties keep corpus order);
at most ten results are returned, exactly ten when more were collected;
an empty corpus yields an empty result list. -/
theorem c3_search_ranking :
    (∀ onDisk hashOf q corpus,
        (collectMatches onDisk hashOf q corpus).map MatchResult.sigil_meta
          = concatMap (fun e => e.sigils_metadata.filter (okSigil onDisk hashOf)) corpus) ∧
    (∀ onDisk hashOf q corpus,
        List.Pairwise (fun u v => u.distance ≤ v.distance)
          (searchMatches onDisk hashOf q corpus)) ∧
    (∀ onDisk hashOf q corpus (d : Nat),
        (sortByDist (collectMatches onDisk hashOf q corpus)).filter (fun m => m.distance == d)
          = (collectMatches onDisk hashOf q corpus).filter (fun m => m.distance == d)) ∧
    (∀ onDisk hashOf q corpus,
        (searchMatches onDisk hashOf q corpus).length
          = min 10 (collectMatches onDisk hashOf q corpus).length) ∧
    (∀ onDisk hashOf q, searchMatches onDisk hashOf q [] = []) := by
  refine ⟨collectMatches_sigils, ?_, ?_, ?_, ?_⟩
  · intro onDisk hashOf q corpus
    exact List.Pairwise.sublist (List.take_sublist 10 _)
      (sortByDist_sorted (collectMatches onDisk hashOf q corpus))
  · intro onDisk hashOf q corpus d
    exact sortByDist_filter d _
  · intro onDisk hashOf q corpus
    simp [searchMatches, List.length_take, sortByDist_length]
  · intro onDisk hashOf q
    rfl

/- ================================================================
   C4: the empty-canvas guard.
   ================================================================ -/

/-- C4: on a uniform blank canvas (one color, background white, covering
all 250 by 250 pixels) the guard of source line 654 evaluates the
attribute chain Image.Color, which the PIL Image module does not have, so
an AttributeError escapes before hashing and before any corpus work; the
intended distinct empty-canvas message is never produced. -/
theorem c4_empty_canvas_attribute_error :
    searchDrawnSigilAction (fun _ => true) (fun _ => some [])
      { colors1 := some (62500, (255, 255, 255)), phash := some [] }
      [{ heading := "A", classTag := "Ab.", description := "", references_raw := [],
         sigils_metadata := [], page_number := 1 }]
      = SearchOutcome.attributeError ∧
    SearchOutcome.attributeError ≠ SearchOutcome.emptyCanvasMessage := by
  exact ⟨by decide, by decide⟩

/- ================================================================
   C6: the glyph candidate rules of the two strategies.
   ================================================================ -/

/-- C6 counterexample: the claim says a single hyphen or slash is a
candidate under either strategy, and the spec-worded vector rule indeed
accepts the hyphen; but COMMON_PUNCTUATION as defined on source line 48
contains both the hyphen and the slash, so the code's vector rule rejects
them while the raster rule accepts them. -/
theorem c6_hyphen_counterexample :
    specVectorCandidate "-" = true ∧ isVectorCandidate "-" = false ∧
    isVectorCandidate "/" = false ∧ isOcrSymbolCandidate "-" = true ∧
    isOcrSymbolCandidate "/" = true := by
  exact ⟨by decide, by decide, by decide, by decide, by decide⟩

theorem pyIsAlnumStr_single (c : Char) : pyIsAlnumStr (String.mk [c]) = c.isAlphanum := by
  simp [pyIsAlnumStr]

theorem pyIsSpaceStr_single (c : Char) : pyIsSpaceStr (String.mk [c]) = isSpaceRe c := by
  simp [pyIsSpaceStr]

/-- C6 (amended): the raster rule accepts a trimmed token of one to five
characters none of which is whitespace, a word character, or one of the
twelve listed punctuation characters (hyphen and slash excluded, so they
are raster candidates); the vector rule tests membership in
COMMON_PUNCTUATION, which additionally contains hyphen and slash, so a
single hyphen or slash is a candidate under the raster rule only. -/
theorem c6_candidate_rules :
    (∀ (t : String), isOcrSymbolCandidate t = true ↔
        (1 ≤ t.toList.length ∧ t.toList.length ≤ 5 ∧
          ∀ c ∈ t.toList, isSpaceRe c = false ∧ isWordChar c = false ∧ c ∉ ocrPunct)) ∧
    (∀ (c : Char), isVectorCandidate (String.mk [c]) = true ↔
        (Char.isAlphanum c = false ∧ isSpaceRe c = false ∧
          String.mk [c] ∉ COMMON_PUNCTUATION)) ∧
    isOcrSymbolCandidate "-" = true ∧ isOcrSymbolCandidate "/" = true ∧
    isVectorCandidate "-" = false ∧ isVectorCandidate "/" = false := by
  refine ⟨?_, ?_, by decide, by decide, by decide, by decide⟩
  · intro t
    simp only [isOcrSymbolCandidate, Bool.and_eq_true, decide_eq_true_eq,
      List.all_eq_true, Bool.not_eq_true']
    constructor
    · rintro ⟨⟨h1, h5⟩, hall⟩
      refine ⟨h1, h5, ?_⟩
      intro c hc
      have hcc := hall c hc
      simp only [Bool.and_eq_true, Bool.not_eq_true'] at hcc
      obtain ⟨⟨hs, hw⟩, hp⟩ := hcc
      refine ⟨hs, hw, ?_⟩
      intro hmem
      have hc2 : ocrPunct.contains c = true := List.elem_iff.mpr hmem
      rw [hc2] at hp
      cases hp
    · rintro ⟨h1, h5, hall⟩
      refine ⟨⟨h1, h5⟩, ?_⟩
      intro c hc
      obtain ⟨hs, hw, hp⟩ := hall c hc
      have hc2 : ocrPunct.contains c = false :=
        Bool.eq_false_iff.mpr (fun hq => hp (List.elem_iff.mp hq))
      exact ⟨⟨hs, hw⟩, hc2⟩
  · intro c
    rw [isVectorCandidate, pyIsAlnumStr_single, pyIsSpaceStr_single]
    constructor
    · intro h
      simp only [Bool.and_eq_true, Bool.not_eq_true', decide_eq_true_eq] at h
      obtain ⟨⟨⟨_, ha⟩, hp⟩, hs⟩ := h
      refine ⟨ha, hs, fun hmem => ?_⟩
      have hc2 : COMMON_PUNCTUATION.contains (String.mk [c]) = true := List.elem_iff.mpr hmem
      rw [hc2] at hp
      cases hp
    · rintro ⟨ha, hs, hp⟩
      have hc2 : COMMON_PUNCTUATION.contains (String.mk [c]) = false :=
        Bool.eq_false_iff.mpr (fun hq => hp (List.elem_iff.mp hq))
      simp [ha, hs, hc2, hp]

/-- C6 witness: the raster-rule characterization applied to the hyphen. -/
theorem c6_candidate_rules_witness :
    1 ≤ "-".toList.length ∧ "-".toList.length ≤ 5 ∧
      ∀ c ∈ "-".toList, isSpaceRe c = false ∧ isWordChar c = false ∧ c ∉ ocrPunct :=
  (c6_candidate_rules.1 "-").mp (by decide)

/- ================================================================
   C5: geometry filter of the vector strategy.
   ================================================================ -/

/-- C5: for every vector-strategy candidate processed with an open entry,
the character box is padded by one unit per side and the candidate is
dropped with nothing stored (state unchanged: no counter move, no save,
no metadata, no annotation) exactly when the padded box leaves the page,
or is wider than half the page, or is taller than fifty units; when it is
not rejected a save is attempted (the counter advances by one) and on
success the stored metadata carries the padded box.  The scenario box
(10,10,12,12) on a 500 by 700 page is accepted with stored box
(9,9,13,13); a candidate whose padded height is sixty units is dropped
with no file written and no metadata created. -/
theorem c5_vector_box_filter :
    (∀ (renderOk : Rect4 → Bool) (pageW pageH : ℚ) (pn counter : Nat) (oe : OpenEntry)
        (vis : List VisualElem) (ci : CharInfo), isVectorCandidate ci.text = true →
        (rejectPadded (padRect (charRect ci)) pageW pageH = true →
           processVectorChar renderOk pageW pageH pn ⟨counter, some oe, vis⟩ ci
             = ⟨counter, some oe, vis⟩) ∧
        (rejectPadded (padRect (charRect ci)) pageW pageH = false →
           (processVectorChar renderOk pageW pageH pn ⟨counter, some oe, vis⟩ ci).counter
               = counter + 1 ∧
           (renderOk (padRect (charRect ci)) = true →
              (processVectorChar renderOk pageW pageH pn ⟨counter, some oe, vis⟩ ci).current
                = some { oe with sigils_metadata := oe.sigils_metadata ++
                    [{ image_path := sigilPath oe.heading pn (counter + 1),
                       parent_entry_heading := oe.heading, page_number := pn,
                       source_text := ci.text,
                       bounding_box_pdf_coords := padRect (charRect ci),
                       extraction_method := "direct" }] }) ∧
           (renderOk (padRect (charRect ci)) = false →
              (processVectorChar renderOk pageW pageH pn ⟨counter, some oe, vis⟩ ci).current
                  = some oe ∧
              (processVectorChar renderOk pageW pageH pn ⟨counter, some oe, vis⟩ ci).visuals
                  = vis ++ [{ rect := charRect ci, kind := .potential_symbol,
                              snippet := ci.text }]))) ∧
    processVectorChar (fun _ => true) 500 700 2
        { counter := 0,
          current := some { heading := "FOO", classTag := "Abc.", description_parts := [],
                            sigils_metadata := [], page_number := 2 },
          visuals := [] }
        { text := "*", x0 := 10, top := 10, x1 := 12, bottom := 12 }
      = { counter := 1,
          current := some { heading := "FOO", classTag := "Abc.", description_parts := [],
                            sigils_metadata :=
                              [{ image_path := sigilPath "FOO" 2 1,
                                 parent_entry_heading := "FOO", page_number := 2,
                                 source_text := "*",
                                 bounding_box_pdf_coords := ⟨9, 9, 13, 13⟩,
                                 extraction_method := "direct" }],
                            page_number := 2 },
          visuals := [{ rect := ⟨10, 10, 12, 12⟩, kind := .saved_sigil, snippet := "*" }] } ∧
    processVectorChar (fun _ => true) 500 700 2
        { counter := 0,
          current := some { heading := "FOO", classTag := "Abc.", description_parts := [],
                            sigils_metadata := [], page_number := 2 },
          visuals := [] }
        { text := "*", x0 := 10, top := 10, x1 := 12, bottom := 68 }
      = { counter := 0,
          current := some { heading := "FOO", classTag := "Abc.", description_parts := [],
                            sigils_metadata := [], page_number := 2 },
          visuals := [] } := by
  refine ⟨?_, by with_unfolding_all rfl, by with_unfolding_all rfl⟩
  intro renderOk pageW pageH pn counter oe vis ci hcand
  constructor
  · intro hrej
    simp [processVectorChar, hcand, hrej]
  · intro hrej
    cases hro : renderOk (padRect (charRect ci)) with
    | true =>
      refine ⟨by simp [processVectorChar, hcand, hrej, saveSigilImage, hro], ?_, ?_⟩
      · intro _
        simp [processVectorChar, hcand, hrej, saveSigilImage, hro]
      · intro hro2
        exact absurd hro2 (by simp)
    | false =>
      refine ⟨by simp [processVectorChar, hcand, hrej, saveSigilImage, hro], ?_, ?_⟩
      · intro hro2
        exact absurd hro2 (by simp)
      · intro _
        constructor
        · simp [processVectorChar, hcand, hrej, saveSigilImage, hro]
        · simp [processVectorChar, hcand, hrej, saveSigilImage, hro]

/-- C5 witness: the drop conjunct applied to the padded-height-sixty
scenario, and the acceptance conjunct applied to the in-bounds scenario. -/
theorem c5_vector_box_filter_witness :
    processVectorChar (fun _ => false) 500 700 2
        ⟨5, some { heading := "X", classTag := "Ab.", description_parts := [],
                   sigils_metadata := [], page_number := 2 }, []⟩
        { text := "*", x0 := 10, top := 10, x1 := 12, bottom := 68 }
      = ⟨5, some { heading := "X", classTag := "Ab.", description_parts := [],
                   sigils_metadata := [], page_number := 2 }, []⟩ :=
  ((c5_vector_box_filter.1 (fun _ => false) 500 700 2 5
      { heading := "X", classTag := "Ab.", description_parts := [],
        sigils_metadata := [], page_number := 2 } []
      { text := "*", x0 := 10, top := 10, x1 := 12, bottom := 68 }
      (by decide)).1 (of_decide_eq_true (by with_unfolding_all rfl)))

/- ================================================================
   C10: the per-scan sigil counter and filename uniqueness.
   ================================================================ -/

theorem digitCharOf_isDigit (m : Nat) (hm : m < 10) : (digitCharOf m).isDigit = true := by
  interval_cases m <;> decide

theorem digitCharOf_toNat (m : Nat) (hm : m < 10) : (digitCharOf m).toNat - 48 = m := by
  interval_cases m <;> decide

theorem parseDec_append_one (xs : List Char) (c : Char) :
    parseDec (xs ++ [c]) = 10 * parseDec xs + (c.toNat - 48) := by
  simp [parseDec, List.foldl_append]

theorem decReprAux_spec :
    ∀ (fuel n : Nat), n < fuel →
      (∀ c ∈ decReprAux fuel n, c.isDigit = true) ∧ decReprAux fuel n ≠ [] ∧
        parseDec (decReprAux fuel n) = n := by
  intro fuel
  induction fuel with
  | zero => intro n h; omega
  | succ fuel ih =>
    intro n h
    by_cases h10 : n < 10
    · simp only [decReprAux, if_pos h10]
      refine ⟨?_, by simp, ?_⟩
      · intro c hc
        rcases List.mem_singleton.mp hc with rfl
        exact digitCharOf_isDigit n h10
      · show parseDec ([] ++ [digitCharOf n]) = n
        rw [parseDec_append_one, digitCharOf_toNat n h10]
        simp [parseDec]
    · simp only [decReprAux, if_neg h10]
      have hdiv : n / 10 < fuel := by
        have h2 := Nat.div_lt_self (by omega : 0 < n) (by omega : 1 < 10)
        omega
      obtain ⟨hall, hne, hparse⟩ := ih (n / 10) hdiv
      refine ⟨?_, by simp, ?_⟩
      · intro c hc
        rcases List.mem_append.mp hc with hc1 | hc2
        · exact hall c hc1
        · rcases List.mem_singleton.mp hc2 with rfl
          exact digitCharOf_isDigit (n % 10) (Nat.mod_lt n (by omega))
      · rw [parseDec_append_one, hparse, digitCharOf_toNat (n % 10) (Nat.mod_lt n (by omega))]
        omega

theorem decRepr_spec (n : Nat) :
    (∀ c ∈ decRepr n, c.isDigit = true) ∧ decRepr n ≠ [] ∧ parseDec (decRepr n) = n :=
  decReprAux_spec (n + 1) n (by omega)

theorem decRepr_inj {m n : Nat} (h : decRepr m = decRepr n) : m = n := by
  have hm := (decRepr_spec m).2.2
  have hn := (decRepr_spec n).2.2
  rw [h] at hm
  omega

theorem takeWhile_append_stop {p : Char → Bool} :
    ∀ (xs : List Char) (y : Char) (ys : List Char), (∀ c ∈ xs, p c = true) → p y = false →
      (xs ++ y :: ys).takeWhile p = xs := by
  intro xs
  induction xs with
  | nil => intro y ys _ hy; simp [List.takeWhile_cons, hy]
  | cons x xt ih =>
    intro y ys hall hy
    have hx : p x = true := hall x (List.mem_cons_self x xt)
    simp only [List.cons_append, List.takeWhile_cons, hx]
    rw [ih y ys (fun c hc => hall c (List.mem_cons_of_mem x hc)) hy]
    simp

theorem sigilFilenameChars_digits_suffix (h : String) (p n : Nat) :
    (sigilFilenameChars h p n).reverse.takeWhile Char.isDigit = (decRepr n).reverse := by
  have e : sigilFilenameChars h p n
      = (("sigil_".toList ++ cleanHeadingChars h ++ "_p".toList ++ decRepr p)
          ++ ['_', 'i', 'd']) ++ decRepr n := by
    simp [sigilFilenameChars]
  rw [e, List.reverse_append, List.reverse_append]
  show List.takeWhile Char.isDigit ((decRepr n).reverse ++ 'd' :: 'i' :: '_' ::
    ("sigil_".toList ++ cleanHeadingChars h ++ "_p".toList ++ decRepr p).reverse)
    = (decRepr n).reverse
  refine takeWhile_append_stop (decRepr n).reverse 'd' _ ?_ (by decide)
  intro c hc
  exact (decRepr_spec n).1 c (List.mem_reverse.mp hc)

theorem sigilFilenameChars_inj_id {h1 : String} {p1 n1 : Nat} {h2 : String} {p2 n2 : Nat}
    (heq : sigilFilenameChars h1 p1 n1 = sigilFilenameChars h2 p2 n2) : n1 = n2 := by
  have t1 := sigilFilenameChars_digits_suffix h1 p1 n1
  have t2 := sigilFilenameChars_digits_suffix h2 p2 n2
  rw [heq] at t1
  rw [t2] at t1
  exact (decRepr_inj (List.reverse_injective t1)).symm

theorem sigilPath_inj_id {h1 : String} {p1 n1 : Nat} {h2 : String} {p2 n2 : Nat}
    (heq : sigilPath h1 p1 n1 = sigilPath h2 p2 n2) : n1 = n2 := by
  have hdata := congrArg String.data heq
  simp only [sigilPath] at hdata
  have h3 := List.append_cancel_right hdata
  have h4 := List.append_cancel_left h3
  exact sigilFilenameChars_inj_id h4

theorem runSaves_ids (renderOk : Rect4 → Bool) :
    ∀ (reqs : List (Rect4 × String × Nat)) (c0 : Nat),
      (runSaves renderOk c0 reqs).2.map Prod.fst = List.range' (c0 + 1) reqs.length ∧
      (runSaves renderOk c0 reqs).1 = c0 + reqs.length := by
  intro reqs
  induction reqs with
  | nil => intro c0; simp [runSaves]
  | cons req rest ih =>
    intro c0
    obtain ⟨b, h, p⟩ := req
    obtain ⟨ih1, ih2⟩ := ih (c0 + 1)
    constructor
    · simp only [runSaves, saveSigilImage, List.map_cons, List.length_cons, List.range'_succ]
      rw [ih1]
    · simp only [runSaves, saveSigilImage, List.length_cons]
      rw [ih2]
      omega

theorem runSaves_mem_path (renderOk : Rect4 → Bool) :
    ∀ (reqs : List (Rect4 × String × Nat)) (c0 : Nat) (s : String),
      s ∈ (runSaves renderOk c0 reqs).2.filterMap Prod.snd →
      ∃ hd p n, c0 < n ∧ s = sigilPath hd p n := by
  intro reqs
  induction reqs with
  | nil => intro c0 s hs; simp [runSaves] at hs
  | cons req rest ih =>
    intro c0 s hs
    obtain ⟨b, h, p⟩ := req
    simp only [runSaves, saveSigilImage, List.filterMap_cons] at hs
    by_cases hro : renderOk b
    · rw [if_pos hro] at hs
      rcases List.mem_cons.mp hs with rfl | hs2
      · exact ⟨h, p, c0 + 1, by omega, rfl⟩
      · obtain ⟨hd, pp, n, hn, hE⟩ := ih (c0 + 1) s hs2
        exact ⟨hd, pp, n, by omega, hE⟩
    · rw [if_neg hro] at hs
      obtain ⟨hd, pp, n, hn, hE⟩ := ih (c0 + 1) s hs
      exact ⟨hd, pp, n, by omega, hE⟩

theorem runSaves_paths_distinct (renderOk : Rect4 → Bool) :
    ∀ (reqs : List (Rect4 × String × Nat)) (c0 : Nat),
      List.Pairwise (fun a b => a ≠ b)
        ((runSaves renderOk c0 reqs).2.filterMap Prod.snd) := by
  intro reqs
  induction reqs with
  | nil => intro c0; simp [runSaves]
  | cons req rest ih =>
    intro c0
    obtain ⟨b, h, p⟩ := req
    simp only [runSaves, saveSigilImage, List.filterMap_cons]
    by_cases hro : renderOk b
    · rw [if_pos hro]
      refine List.pairwise_cons.mpr ⟨?_, ih (c0 + 1)⟩
      intro s hs
      obtain ⟨hd, pp, n, hn, rfl⟩ := runSaves_mem_path renderOk rest (c0 + 1) s hs
      intro hES
      have := sigilPath_inj_id hES
      omega
    · rw [if_neg hro]
      exact ih (c0 + 1)

/-- C10: every save call moves the counter up by exactly one before any
validity check (also when it returns none); over a scan's sequence of
save attempts the ids used are consecutive from the starting counter plus
one, hence strictly increasing; filenames of saves with different ids
differ, so successful saves never collide; and the persisted ids may have
gaps, as the concrete run with a failing middle save shows. -/
theorem c10_sigil_counter :
    (∀ (renderOk : Rect4 → Bool) (counter : Nat) (bbox : Rect4) (heading : String) (pn : Nat),
        (saveSigilImage renderOk counter bbox heading pn).1 = counter + 1) ∧
    (∀ (renderOk : Rect4 → Bool) (reqs : List (Rect4 × String × Nat)) (c0 : Nat),
        (runSaves renderOk c0 reqs).2.map Prod.fst = List.range' (c0 + 1) reqs.length) ∧
    (∀ (h1 : String) (p1 n1 : Nat) (h2 : String) (p2 n2 : Nat),
        n1 ≠ n2 → sigilPath h1 p1 n1 ≠ sigilPath h2 p2 n2) ∧
    (∀ (renderOk : Rect4 → Bool) (reqs : List (Rect4 × String × Nat)) (c0 : Nat),
        List.Pairwise (fun a b => a ≠ b)
          ((runSaves renderOk c0 reqs).2.filterMap Prod.snd)) ∧
    (runSaves (fun b => b.x0 == 0) 0
        [(⟨0, 0, 1, 1⟩, "A", 1), (⟨5, 0, 1, 1⟩, "A", 1), (⟨0, 0, 1, 1⟩, "A", 1)]).2.filterMap
          Prod.snd
      = [sigilPath "A" 1 1, sigilPath "A" 1 3] := by
  refine ⟨fun _ _ _ _ _ => rfl, ?_, ?_, runSaves_paths_distinct, by decide⟩
  · intro renderOk reqs c0
    exact (runSaves_ids renderOk reqs c0).1
  · intro h1 p1 n1 h2 p2 n2 hne heq
    exact hne (sigilPath_inj_id heq)

/-- C10 witness: distinct ids give distinct stored paths at concrete
arguments. -/
theorem c10_sigil_counter_witness : sigilPath "A" 1 1 ≠ sigilPath "B" 2 2 :=
  c10_sigil_counter.2.2.1 "A" 1 1 "B" 2 2 (by decide)

/- ================================================================
   C2: attachment of detected glyphs to entries.
   ================================================================ -/

theorem processLine_inv (pn : Nat) (st : List Entry × Option OpenEntry) (l : List Char)
    (h1 : ∀ e ∈ st.1, e.sigils_metadata = [] ∧ e.page_number = pn)
    (h2 : ∀ oe, st.2 = some oe → oe.sigils_metadata = [] ∧ oe.page_number = pn) :
    (∀ e ∈ (processLine pn st l).1, e.sigils_metadata = [] ∧ e.page_number = pn) ∧
    (∀ oe, (processLine pn st l).2 = some oe →
      oe.sigils_metadata = [] ∧ oe.page_number = pn) := by
  obtain ⟨es, cur⟩ := st
  cases hemp : (stripChars l).isEmpty with
  | true => rw [processLine_empty pn _ l hemp]; exact ⟨h1, h2⟩
  | false =>
    cases hm : headingClassMatch (stripChars l) with
    | some q =>
      obtain ⟨g1, ws, g2, rest⟩ := q
      rw [processLine_heading pn _ l g1 ws g2 rest hemp hm]
      cases cur with
      | none =>
        refine ⟨fun e he => h1 e he, ?_⟩
        intro oe hoe
        simp only [Option.some.injEq] at hoe
        subst hoe
        exact ⟨rfl, rfl⟩
      | some oe0 =>
        constructor
        · intro e he
          rcases List.mem_append.mp he with he1 | he2
          · exact h1 e he1
          · rcases List.mem_singleton.mp he2 with rfl
            obtain ⟨hs0, hp0⟩ := h2 oe0 rfl
            exact ⟨hs0, hp0⟩
        · intro oe hoe
          simp only [Option.some.injEq] at hoe
          subst hoe
          exact ⟨rfl, rfl⟩
    | none =>
      cases cur with
      | none => rw [processLine_drop pn es l hemp hm]; exact ⟨h1, h2⟩
      | some oe0 =>
        rw [processLine_body pn es oe0 l hemp hm]
        refine ⟨h1, ?_⟩
        intro oe hoe
        simp only [Option.some.injEq] at hoe
        subst hoe
        obtain ⟨hs0, hp0⟩ := h2 oe0 rfl
        exact ⟨hs0, hp0⟩

theorem foldl_processLine_inv (pn : Nat) :
    ∀ (lines : List (List Char)) (st : List Entry × Option OpenEntry),
      (∀ e ∈ st.1, e.sigils_metadata = [] ∧ e.page_number = pn) →
      (∀ oe, st.2 = some oe → oe.sigils_metadata = [] ∧ oe.page_number = pn) →
      (∀ e ∈ (List.foldl (processLine pn) st lines).1,
          e.sigils_metadata = [] ∧ e.page_number = pn) ∧
      (∀ oe, (List.foldl (processLine pn) st lines).2 = some oe →
          oe.sigils_metadata = [] ∧ oe.page_number = pn) := by
  intro lines
  induction lines with
  | nil => intro st h1 h2; exact ⟨h1, h2⟩
  | cons l ls ih =>
    intro st h1 h2
    rw [List.foldl_cons]
    obtain ⟨g1, g2⟩ := processLine_inv pn st l h1 h2
    exact ih (processLine pn st l) g1 g2

theorem plumberLineFold_inv (pn : Nat) (lines : List (List Char)) :
    (∀ e ∈ (plumberLineFold pn lines).1, e.sigils_metadata = [] ∧ e.page_number = pn) ∧
    (∀ oe, (plumberLineFold pn lines).2 = some oe →
        oe.sigils_metadata = [] ∧ oe.page_number = pn) :=
  foldl_processLine_inv pn lines ([], none) (by simp) (by simp)

theorem processVectorChar_core (renderOk : Rect4 → Bool) (pageW pageH : ℚ) (pn : Nat)
    (st : CharScanState) (ci : CharInfo) :
    ((processVectorChar renderOk pageW pageH pn st ci).current).map openCore
      = (st.current).map openCore := by
  by_cases hc : isVectorCandidate ci.text
  · cases hcur : st.current with
    | none => simp [processVectorChar, hc, hcur]
    | some oe =>
      by_cases hrej : rejectPadded (padRect (charRect ci)) pageW pageH
      · simp [processVectorChar, hc, hcur, hrej]
      · cases hro : renderOk (padRect (charRect ci)) with
        | true => simp [processVectorChar, hc, hcur, hrej, saveSigilImage, hro, openCore]
        | false => simp [processVectorChar, hc, hcur, hrej, saveSigilImage, hro]
  · simp [processVectorChar, hc]

theorem charFold_none (renderOk : Rect4 → Bool) (pageW pageH : ℚ) (pn : Nat) :
    ∀ (chars : List CharInfo) (counter : Nat) (vis : List VisualElem),
      List.foldl (processVectorChar renderOk pageW pageH pn)
          { counter := counter, current := none, visuals := vis } chars
        = { counter := counter, current := none, visuals := vis } := by
  intro chars
  induction chars with
  | nil => intro counter vis; rfl
  | cons ci cs ih =>
    intro counter vis
    rw [List.foldl_cons]
    have hstep : processVectorChar renderOk pageW pageH pn
        { counter := counter, current := none, visuals := vis } ci
        = { counter := counter, current := none, visuals := vis } := by
      by_cases hc : isVectorCandidate ci.text <;> simp [processVectorChar, hc]
    rw [hstep, ih]

theorem charFold_core (renderOk : Rect4 → Bool) (pageW pageH : ℚ) (pn : Nat) :
    ∀ (chars : List CharInfo) (st : CharScanState),
      ((List.foldl (processVectorChar renderOk pageW pageH pn) st chars).current).map openCore
        = (st.current).map openCore := by
  intro chars
  induction chars with
  | nil => intro st; rfl
  | cons ci cs ih =>
    intro st
    rw [List.foldl_cons, ih, processVectorChar_core]

theorem processVectorChar_sig (renderOk : Rect4 → Bool) (pageW pageH : ℚ) (pn : Nat)
    (st : CharScanState) (ci : CharInfo) (hd : String) (oe : OpenEntry)
    (hcur : st.current = some oe) (hh : oe.heading = hd)
    (hs : ∀ m ∈ oe.sigils_metadata, m.page_number = pn ∧ m.parent_entry_heading = hd) :
    ∃ oe2, (processVectorChar renderOk pageW pageH pn st ci).current = some oe2 ∧
      oe2.heading = hd ∧
      ∀ m ∈ oe2.sigils_metadata, m.page_number = pn ∧ m.parent_entry_heading = hd := by
  by_cases hc : isVectorCandidate ci.text
  · by_cases hrej : rejectPadded (padRect (charRect ci)) pageW pageH
    · refine ⟨oe, ?_, hh, hs⟩
      simp [processVectorChar, hc, hcur, hrej]
    · cases hro : renderOk (padRect (charRect ci)) with
      | true =>
        refine ⟨{ oe with sigils_metadata := oe.sigils_metadata ++
            [{ image_path := sigilPath oe.heading pn (st.counter + 1),
               parent_entry_heading := oe.heading, page_number := pn,
               source_text := ci.text, bounding_box_pdf_coords := padRect (charRect ci),
               extraction_method := "direct" }] }, ?_, hh, ?_⟩
        · simp [processVectorChar, hc, hcur, hrej, saveSigilImage, hro]
        · intro m hm
          rcases List.mem_append.mp hm with hm1 | hm2
          · exact hs m hm1
          · rcases List.mem_singleton.mp hm2 with rfl
            exact ⟨rfl, hh⟩
      | false =>
        refine ⟨oe, ?_, hh, hs⟩
        simp [processVectorChar, hc, hcur, hrej, saveSigilImage, hro]
  · refine ⟨oe, ?_, hh, hs⟩
    simp [processVectorChar, hc, hcur]

theorem charFold_sig (renderOk : Rect4 → Bool) (pageW pageH : ℚ) (pn : Nat) :
    ∀ (chars : List CharInfo) (st : CharScanState) (hd : String) (oe : OpenEntry),
      st.current = some oe → oe.heading = hd →
      (∀ m ∈ oe.sigils_metadata, m.page_number = pn ∧ m.parent_entry_heading = hd) →
      ∃ oe2, (List.foldl (processVectorChar renderOk pageW pageH pn) st chars).current
          = some oe2 ∧ oe2.heading = hd ∧
        ∀ m ∈ oe2.sigils_metadata, m.page_number = pn ∧ m.parent_entry_heading = hd := by
  intro chars
  induction chars with
  | nil => intro st hd oe hcur hh hs; exact ⟨oe, hcur, hh, hs⟩
  | cons ci cs ih =>
    intro st hd oe hcur hh hs
    rw [List.foldl_cons]
    obtain ⟨oe1, hcur1, hh1, hs1⟩ :=
      processVectorChar_sig renderOk pageW pageH pn st ci hd oe hcur hh hs
    exact ih (processVectorChar renderOk pageW pageH pn st ci) hd oe1 hcur1 hh1 hs1

theorem extractPlumber_entries_eq (renderOk : Rect4 → Bool) (pageW pageH : ℚ) (pn : Nat)
    (pageText : String) (plines : List PLine) (chars : List CharInfo)
    (words : List WordInfo) (counter0 : Nat) (hpt : ¬ pageText = "") :
    (extractElementsFromPlumberPage renderOk pageW pageH pn pageText plines chars words
        counter0).1
      = (plumberLineFold pn (splitNl pageText.toList)).1 ++
        (match (List.foldl (processVectorChar renderOk pageW pageH pn)
            { counter := counter0, current := (plumberLineFold pn (splitNl pageText.toList)).2,
              visuals := [] } chars).current with
         | some oe => [finalizeEntry oe]
         | none => []) := by
  simp [extractElementsFromPlumberPage, hpt]

theorem extractPlumber_counter_eq (renderOk : Rect4 → Bool) (pageW pageH : ℚ) (pn : Nat)
    (pageText : String) (plines : List PLine) (chars : List CharInfo)
    (words : List WordInfo) (counter0 : Nat) (hpt : ¬ pageText = "") :
    (extractElementsFromPlumberPage renderOk pageW pageH pn pageText plines chars words
        counter0).2.2
      = (List.foldl (processVectorChar renderOk pageW pageH pn)
          { counter := counter0, current := (plumberLineFold pn (splitNl pageText.toList)).2,
            visuals := [] } chars).counter := by
  simp [extractElementsFromPlumberPage, hpt]

theorem extractPlumber_attached (renderOk : Rect4 → Bool) (pageW pageH : ℚ) (pn : Nat)
    (pageText : String) (plines : List PLine) (chars : List CharInfo)
    (words : List WordInfo) (counter0 : Nat) :
    ∀ e ∈ (extractElementsFromPlumberPage renderOk pageW pageH pn pageText plines chars
        words counter0).1, entryAttached pn e := by
  by_cases hpt : pageText = ""
  · simp [extractElementsFromPlumberPage, hpt]
  · rw [extractPlumber_entries_eq renderOk pageW pageH pn pageText plines chars words
      counter0 hpt]
    intro e he
    obtain ⟨hinv1, hinv2⟩ := plumberLineFold_inv pn (splitNl pageText.toList)
    rcases List.mem_append.mp he with he1 | he2
    · obtain ⟨hsig, hpage⟩ := hinv1 e he1
      refine ⟨hpage, ?_⟩
      intro m hm
      rw [hsig] at hm
      simp at hm
    · cases hcs : (List.foldl (processVectorChar renderOk pageW pageH pn)
          { counter := counter0, current := (plumberLineFold pn (splitNl pageText.toList)).2,
            visuals := [] } chars).current with
      | none => rw [hcs] at he2; simp at he2
      | some oe2 =>
        rw [hcs] at he2
        rcases List.mem_singleton.mp he2 with rfl
        have hcore := charFold_core renderOk pageW pageH pn chars
          { counter := counter0, current := (plumberLineFold pn (splitNl pageText.toList)).2,
            visuals := [] }
        rw [hcs] at hcore
        have hcore2 : (plumberLineFold pn (splitNl pageText.toList)).2.map openCore
            = some (openCore oe2) := hcore.symm
        obtain ⟨oe1, hoe1, hcoreq⟩ := Option.map_eq_some'.mp hcore2
        obtain ⟨hs1, hp1⟩ := hinv2 oe1 hoe1
        obtain ⟨oe3, hoe3, hh3, hs3⟩ := charFold_sig renderOk pageW pageH pn chars
          { counter := counter0, current := (plumberLineFold pn (splitNl pageText.toList)).2,
            visuals := [] } oe1.heading oe1 (by rw [hoe1]) rfl
          (by intro m hm; rw [hs1] at hm; simp at hm)
        rw [hcs] at hoe3
        rcases Option.some.inj hoe3 with rfl
        have hpage2 : oe2.page_number = pn := by
          have := congrArg (fun q => q.2.2.2) hcoreq
          simp only [openCore] at this
          rw [← this, hp1]
        refine ⟨by simp [finalizeEntry, hpage2], ?_⟩
        intro m hm
        have hm2 : m ∈ oe2.sigils_metadata := hm
        obtain ⟨hmp, hmh⟩ := hs3 m hm2
        refine ⟨hmp, ?_⟩
        rw [hmh, ← hh3]
        rfl

theorem extractPlumber_dropLast (renderOk : Rect4 → Bool) (pageW pageH : ℚ) (pn : Nat)
    (pageText : String) (plines : List PLine) (chars : List CharInfo)
    (words : List WordInfo) (counter0 : Nat) :
    ∀ e ∈ (extractElementsFromPlumberPage renderOk pageW pageH pn pageText plines chars
        words counter0).1.dropLast, e.sigils_metadata = [] := by
  by_cases hpt : pageText = ""
  · simp [extractElementsFromPlumberPage, hpt]
  · rw [extractPlumber_entries_eq renderOk pageW pageH pn pageText plines chars words
      counter0 hpt]
    intro e he
    obtain ⟨hinv1, _⟩ := plumberLineFold_inv pn (splitNl pageText.toList)
    cases hcs : (List.foldl (processVectorChar renderOk pageW pageH pn)
        { counter := counter0, current := (plumberLineFold pn (splitNl pageText.toList)).2,
          visuals := [] } chars).current with
    | none =>
      rw [hcs] at he
      simp only [List.append_nil] at he
      exact (hinv1 e (List.dropLast_sublist _ |>.mem he)).1
    | some oe2 =>
      rw [hcs] at he
      rw [List.dropLast_concat] at he
      exact (hinv1 e he).1

theorem extractPlumber_empty_counter (renderOk : Rect4 → Bool) (pageW pageH : ℚ) (pn : Nat)
    (pageText : String) (plines : List PLine) (chars : List CharInfo)
    (words : List WordInfo) (counter0 : Nat)
    (hemp : (extractElementsFromPlumberPage renderOk pageW pageH pn pageText plines chars
        words counter0).1 = []) :
    (extractElementsFromPlumberPage renderOk pageW pageH pn pageText plines chars words
        counter0).2.2 = counter0 := by
  by_cases hpt : pageText = ""
  · simp [extractElementsFromPlumberPage, hpt]
  · rw [extractPlumber_entries_eq renderOk pageW pageH pn pageText plines chars words
      counter0 hpt] at hemp
    rw [extractPlumber_counter_eq renderOk pageW pageH pn pageText plines chars words
      counter0 hpt]
    cases hcs : (List.foldl (processVectorChar renderOk pageW pageH pn)
        { counter := counter0, current := (plumberLineFold pn (splitNl pageText.toList)).2,
          visuals := [] } chars).current with
    | some oe2 => rw [hcs] at hemp; simp at hemp
    | none =>
      have hcore := charFold_core renderOk pageW pageH pn chars
        { counter := counter0, current := (plumberLineFold pn (splitNl pageText.toList)).2,
          visuals := [] }
      rw [hcs] at hcore
      have hnone : (plumberLineFold pn (splitNl pageText.toList)).2 = none := by
        have := hcore.symm
        exact Option.map_eq_none'.mp this
      rw [hnone]
      rw [charFold_none]

theorem findLastIdxP_all {α : Type} (p : α → Bool) :
    ∀ (l : List α), (∀ a ∈ l, p a = true) → l ≠ [] →
      findLastIdxP p l = some (l.length - 1) := by
  intro l
  induction l with
  | nil => intro _ h; exact absurd rfl h
  | cons a t ih =>
    intro hall _
    cases t with
    | nil =>
      simp [findLastIdxP, hall a (List.mem_cons_self a [])]
    | cons b t2 =>
      have hrec := ih (fun x hx => hall x (List.mem_cons_of_mem a hx)) (by simp)
      show (match findLastIdxP p (b :: t2) with
            | some i => some (i + 1)
            | none => if p a = true then some 0 else none) = some ((a :: b :: t2).length - 1)
      rw [hrec]
      simp

theorem dropLast_set_last {α : Type} :
    ∀ (l : List α) (x : α), (l.set (l.length - 1) x).dropLast = l.dropLast := by
  intro l
  induction l with
  | nil => intro x; rfl
  | cons a t ih =>
    intro x
    cases t with
    | nil => rfl
    | cons b t2 =>
      have hlen : (a :: b :: t2).length - 1 = (b :: t2).length - 1 + 1 := by simp
      rw [hlen]
      show (a :: (b :: t2).set ((b :: t2).length - 1) x).dropLast = (a :: b :: t2).dropLast
      have hset : ∃ c cs, (b :: t2).set ((b :: t2).length - 1) x = c :: cs := by
        cases t2 with
        | nil => exact ⟨x, [], rfl⟩
        | cons d t3 =>
          simp only [List.length_cons]
          exact ⟨b, _, rfl⟩
      obtain ⟨c, cs, hcs⟩ := hset
      rw [hcs, List.dropLast_cons₂, ← hcs, ih x, ← List.dropLast_cons₂]

theorem parsePageLines_inv (pn : Nat) (lines : List (List Char)) :
    ∀ e ∈ parsePageLines pn lines, e.sigils_metadata = [] ∧ e.page_number = pn := by
  intro e he
  obtain ⟨h1, h2⟩ := plumberLineFold_inv pn lines
  simp only [parsePageLines, closeFold] at he
  rcases List.mem_append.mp he with he1 | he2
  · exact h1 e he1
  · cases hcur : (plumberLineFold pn lines).2 with
    | none => rw [hcur] at he2; simp at he2
    | some oe =>
      rw [hcur] at he2
      rcases List.mem_singleton.mp he2 with rfl
      obtain ⟨hs, hp⟩ := h2 oe hcur
      exact ⟨hs, hp⟩

theorem ocrAttachSigil_inv (renderOk : Rect4 → Bool) (pn : Nat) (st : OcrScanState)
    (text : String) (pixRect pdfRect : Rect4)
    (h1 : ∀ e ∈ st.entries, entryAttached pn e)
    (h2 : ∀ e ∈ st.entries.dropLast, e.sigils_metadata = []) :
    (∀ e ∈ (ocrAttachSigil renderOk pn st text pixRect pdfRect).entries, entryAttached pn e) ∧
    (∀ e ∈ (ocrAttachSigil renderOk pn st text pixRect pdfRect).entries.dropLast,
        e.sigils_metadata = []) ∧
    (ocrAttachSigil renderOk pn st text pixRect pdfRect).entries.length
        = st.entries.length := by
  cases hfl : findLastIdxP (fun e => e.page_number == pn) st.entries with
  | none => simp only [ocrAttachSigil, hfl]; exact ⟨h1, h2, by simp⟩
  | some i =>
    have hne : st.entries ≠ [] := by
      intro hcontra
      rw [hcontra] at hfl
      simp [findLastIdxP] at hfl
    have hall : ∀ e ∈ st.entries, (fun e => e.page_number == pn) e = true := by
      intro e he
      simp only [beq_iff_eq]
      exact (h1 e he).1
    have hfl2 := findLastIdxP_all (fun e => e.page_number == pn) st.entries hall hne
    rw [hfl] at hfl2
    rcases Option.some.inj hfl2 with rfl
    simp only [ocrAttachSigil, hfl]
    cases hget : st.entries[st.entries.length - 1]? with
    | none => exact ⟨h1, h2, by simp⟩
    | some e =>
      have hmem : e ∈ st.entries := by
        have := List.getElem?_mem hget
        exact this
      cases hro : renderOk pdfRect with
      | true =>
        simp only [saveSigilImage, hro, if_pos]
        refine ⟨?_, ?_, by simp⟩
        · intro x hx
          rcases List.mem_or_eq_of_mem_set hx with hx1 | hx2
          · exact h1 x hx1
          · subst hx2
            obtain ⟨hep, hes⟩ := h1 e hmem
            refine ⟨hep, ?_⟩
            intro m hm
            rcases List.mem_append.mp hm with hm1 | hm2
            · obtain ⟨q1, q2⟩ := hes m hm1
              exact ⟨q1, q2⟩
            · rcases List.mem_singleton.mp hm2 with rfl
              exact ⟨rfl, rfl⟩
        · intro x hx
          rw [dropLast_set_last] at hx
          exact h2 x hx
      | false =>
        simp only [saveSigilImage, hro, if_neg, Bool.false_eq_true, not_false_eq_true]
        exact ⟨h1, h2, by simp⟩

theorem ocrTokenStep_shape (renderOk : Rect4 → Bool) (zx zy : ℚ) (pn : Nat)
    (st : OcrScanState) (t : OcrToken) :
    (∃ vadd, ocrTokenStep renderOk zx zy pn st t
        = { entries := st.entries, counter := st.counter, visuals := st.visuals ++ vadd }) ∨
    (∃ text pix pdf, ocrTokenStep renderOk zx zy pn st t
        = ocrAttachSigil renderOk pn st text pix pdf) := by
  obtain ⟨es, c, v⟩ := st
  simp only [ocrTokenStep]
  by_cases hskip : t.isna = true ∨ pyStrip t.textStr = ""
  · rw [if_pos hskip]
    exact Or.inl ⟨[], by simp⟩
  · rw [if_neg hskip]
    by_cases hh : List.any es (fun e => e.page_number == pn
        && isSubstrOf (pyStrip t.textStr).toList e.heading.toList) = true
    · rw [if_pos hh]
      exact Or.inl ⟨_, rfl⟩
    · rw [if_neg hh]
      by_cases hb : biblioSearch (pyStrip t.textStr) = true
      · rw [if_pos hb]
        exact Or.inl ⟨_, rfl⟩
      · rw [if_neg hb]
        by_cases hs : isOcrSymbolCandidate (pyStrip t.textStr) = true
        · rw [if_pos hs]
          exact Or.inr ⟨_, _, _, rfl⟩
        · rw [if_neg hs]
          exact Or.inl ⟨_, rfl⟩

theorem ocrTokenStep_inv (renderOk : Rect4 → Bool) (zx zy : ℚ) (pn : Nat)
    (st : OcrScanState) (t : OcrToken)
    (h1 : ∀ e ∈ st.entries, entryAttached pn e)
    (h2 : ∀ e ∈ st.entries.dropLast, e.sigils_metadata = []) :
    (∀ e ∈ (ocrTokenStep renderOk zx zy pn st t).entries, entryAttached pn e) ∧
    (∀ e ∈ (ocrTokenStep renderOk zx zy pn st t).entries.dropLast,
        e.sigils_metadata = []) ∧
    (ocrTokenStep renderOk zx zy pn st t).entries.length = st.entries.length := by
  rcases ocrTokenStep_shape renderOk zx zy pn st t with ⟨vadd, heq⟩ | ⟨text, pix, pdf, heq⟩
  · rw [heq]
    exact ⟨h1, h2, rfl⟩
  · rw [heq]
    exact ocrAttachSigil_inv renderOk pn st text pix pdf h1 h2

theorem ocrFold_inv (renderOk : Rect4 → Bool) (zx zy : ℚ) (pn : Nat) :
    ∀ (toks : List OcrToken) (st : OcrScanState),
      (∀ e ∈ st.entries, entryAttached pn e) →
      (∀ e ∈ st.entries.dropLast, e.sigils_metadata = []) →
      (∀ e ∈ (List.foldl (ocrTokenStep renderOk zx zy pn) st toks).entries,
          entryAttached pn e) ∧
      (∀ e ∈ (List.foldl (ocrTokenStep renderOk zx zy pn) st toks).entries.dropLast,
          e.sigils_metadata = []) ∧
      (List.foldl (ocrTokenStep renderOk zx zy pn) st toks).entries.length
          = st.entries.length := by
  intro toks
  induction toks with
  | nil => intro st h1 h2; exact ⟨h1, h2, rfl⟩
  | cons t ts ih =>
    intro st h1 h2
    rw [List.foldl_cons]
    obtain ⟨g1, g2, g3⟩ := ocrTokenStep_inv renderOk zx zy pn st t h1 h2
    obtain ⟨f1, f2, f3⟩ := ih (ocrTokenStep renderOk zx zy pn st t) g1 g2
    exact ⟨f1, f2, by rw [f3, g3]⟩

theorem ocrAttachSigil_empty (renderOk : Rect4 → Bool) (pn : Nat) (st : OcrScanState)
    (text : String) (pixRect pdfRect : Rect4) (h : st.entries = []) :
    (ocrAttachSigil renderOk pn st text pixRect pdfRect).entries = [] ∧
    (ocrAttachSigil renderOk pn st text pixRect pdfRect).counter = st.counter := by
  obtain ⟨es, c, v⟩ := st
  simp only at h
  subst h
  simp [ocrAttachSigil, findLastIdxP]

theorem ocrTokenStep_empty (renderOk : Rect4 → Bool) (zx zy : ℚ) (pn : Nat)
    (st : OcrScanState) (t : OcrToken) (h : st.entries = []) :
    (ocrTokenStep renderOk zx zy pn st t).entries = [] ∧
    (ocrTokenStep renderOk zx zy pn st t).counter = st.counter := by
  rcases ocrTokenStep_shape renderOk zx zy pn st t with ⟨vadd, heq⟩ | ⟨text, pix, pdf, heq⟩
  · rw [heq]
    exact ⟨h, rfl⟩
  · rw [heq]
    exact ocrAttachSigil_empty renderOk pn st text pix pdf h

theorem ocrFold_empty (renderOk : Rect4 → Bool) (zx zy : ℚ) (pn : Nat) :
    ∀ (toks : List OcrToken) (st : OcrScanState), st.entries = [] →
      (List.foldl (ocrTokenStep renderOk zx zy pn) st toks).entries = [] ∧
      (List.foldl (ocrTokenStep renderOk zx zy pn) st toks).counter = st.counter := by
  intro toks
  induction toks with
  | nil => intro st h; exact ⟨h, rfl⟩
  | cons t ts ih =>
    intro st h
    rw [List.foldl_cons]
    obtain ⟨g1, g2⟩ := ocrTokenStep_empty renderOk zx zy pn st t h
    obtain ⟨f1, f2⟩ := ih (ocrTokenStep renderOk zx zy pn st t) g1
    exact ⟨f1, by rw [f2, g2]⟩

theorem extractOcr_attached (renderOk : Rect4 → Bool) (zx zy : ℚ) (pn : Nat)
    (toks : List OcrToken) (counter0 : Nat) :
    ∀ e ∈ (extractElementsWithOcr renderOk zx zy pn toks counter0).1, entryAttached pn e := by
  intro e he
  simp only [extractElementsWithOcr] at he
  have hinv := parsePageLines_inv pn
    ((groupOcrLines (toks.filter (fun t => decide ((-1 : Int) < t.conf)))).map String.toList)
  have hbase1 : ∀ x ∈ parsePageLines pn
      ((groupOcrLines (toks.filter (fun t => decide ((-1 : Int) < t.conf)))).map
        String.toList), entryAttached pn x := by
    intro x hx
    obtain ⟨hs, hp⟩ := hinv x hx
    refine ⟨hp, ?_⟩
    intro m hm
    rw [hs] at hm
    simp at hm
  have hbase2 : ∀ x ∈ (parsePageLines pn
      ((groupOcrLines (toks.filter (fun t => decide ((-1 : Int) < t.conf)))).map
        String.toList)).dropLast, x.sigils_metadata = [] := by
    intro x hx
    exact (hinv x (List.dropLast_sublist _ |>.mem hx)).1
  obtain ⟨f1, _, _⟩ := ocrFold_inv renderOk zx zy pn
    (toks.filter (fun t => decide ((-1 : Int) < t.conf)))
    { entries := parsePageLines pn
        ((groupOcrLines (toks.filter (fun t => decide ((-1 : Int) < t.conf)))).map
          String.toList),
      counter := counter0, visuals := [] } hbase1 hbase2
  exact f1 e he

theorem extractOcr_dropLast (renderOk : Rect4 → Bool) (zx zy : ℚ) (pn : Nat)
    (toks : List OcrToken) (counter0 : Nat) :
    ∀ e ∈ (extractElementsWithOcr renderOk zx zy pn toks counter0).1.dropLast,
      e.sigils_metadata = [] := by
  intro e he
  simp only [extractElementsWithOcr] at he
  have hinv := parsePageLines_inv pn
    ((groupOcrLines (toks.filter (fun t => decide ((-1 : Int) < t.conf)))).map String.toList)
  have hbase1 : ∀ x ∈ parsePageLines pn
      ((groupOcrLines (toks.filter (fun t => decide ((-1 : Int) < t.conf)))).map
        String.toList), entryAttached pn x := by
    intro x hx
    obtain ⟨hs, hp⟩ := hinv x hx
    refine ⟨hp, ?_⟩
    intro m hm
    rw [hs] at hm
    simp at hm
  have hbase2 : ∀ x ∈ (parsePageLines pn
      ((groupOcrLines (toks.filter (fun t => decide ((-1 : Int) < t.conf)))).map
        String.toList)).dropLast, x.sigils_metadata = [] := by
    intro x hx
    exact (hinv x (List.dropLast_sublist _ |>.mem hx)).1
  obtain ⟨_, f2, _⟩ := ocrFold_inv renderOk zx zy pn
    (toks.filter (fun t => decide ((-1 : Int) < t.conf)))
    { entries := parsePageLines pn
        ((groupOcrLines (toks.filter (fun t => decide ((-1 : Int) < t.conf)))).map
          String.toList),
      counter := counter0, visuals := [] } hbase1 hbase2
  exact f2 e he

theorem extractOcr_empty_counter (renderOk : Rect4 → Bool) (zx zy : ℚ) (pn : Nat)
    (toks : List OcrToken) (counter0 : Nat)
    (hemp : (extractElementsWithOcr renderOk zx zy pn toks counter0).1 = []) :
    (extractElementsWithOcr renderOk zx zy pn toks counter0).2.2 = counter0 := by
  simp only [extractElementsWithOcr] at hemp
  simp only [extractElementsWithOcr]
  have hinv := parsePageLines_inv pn
    ((groupOcrLines (toks.filter (fun t => decide ((-1 : Int) < t.conf)))).map String.toList)
  have hbase1 : ∀ x ∈ parsePageLines pn
      ((groupOcrLines (toks.filter (fun t => decide ((-1 : Int) < t.conf)))).map
        String.toList), entryAttached pn x := by
    intro x hx
    obtain ⟨hs, hp⟩ := hinv x hx
    refine ⟨hp, ?_⟩
    intro m hm
    rw [hs] at hm
    simp at hm
  have hbase2 : ∀ x ∈ (parsePageLines pn
      ((groupOcrLines (toks.filter (fun t => decide ((-1 : Int) < t.conf)))).map
        String.toList)).dropLast, x.sigils_metadata = [] := by
    intro x hx
    exact (hinv x (List.dropLast_sublist _ |>.mem hx)).1
  obtain ⟨_, _, f3⟩ := ocrFold_inv renderOk zx zy pn
    (toks.filter (fun t => decide ((-1 : Int) < t.conf)))
    { entries := parsePageLines pn
        ((groupOcrLines (toks.filter (fun t => decide ((-1 : Int) < t.conf)))).map
          String.toList),
      counter := counter0, visuals := [] } hbase1 hbase2
  rw [hemp] at f3
  have hbase0 : parsePageLines pn
      ((groupOcrLines (toks.filter (fun t => decide ((-1 : Int) < t.conf)))).map
        String.toList) = [] := by
    have := f3.symm
    exact List.length_eq_zero.mp (by simpa using this)
  obtain ⟨_, g2⟩ := ocrFold_empty renderOk zx zy pn
    (toks.filter (fun t => decide ((-1 : Int) < t.conf)))
    { entries := parsePageLines pn
        ((groupOcrLines (toks.filter (fun t => decide ((-1 : Int) < t.conf)))).map
          String.toList),
      counter := counter0, visuals := [] } hbase0
  exact g2

/-- C2: under both strategies every produced SigilMetadata sits in an
entry whose page number is the processed page and carries that entry's
own heading as parent; only the last entry of the page (the currently
open one for the vector strategy, the most recently finalized one for the
raster strategy) can hold sigils, all earlier entries have none; and when
the page has no entry at all the glyph is dropped silently: the output
has no metadata and the save counter is untouched. -/
theorem c2_sigil_attachment :
    (∀ (renderOk : Rect4 → Bool) (pageW pageH : ℚ) (pn : Nat) (pageText : String)
        (plines : List PLine) (chars : List CharInfo) (words : List WordInfo)
        (counter0 : Nat),
        ∀ e ∈ (extractElementsFromPlumberPage renderOk pageW pageH pn pageText plines
            chars words counter0).1, entryAttached pn e) ∧
    (∀ (renderOk : Rect4 → Bool) (pageW pageH : ℚ) (pn : Nat) (pageText : String)
        (plines : List PLine) (chars : List CharInfo) (words : List WordInfo)
        (counter0 : Nat),
        ∀ e ∈ (extractElementsFromPlumberPage renderOk pageW pageH pn pageText plines
            chars words counter0).1.dropLast, e.sigils_metadata = []) ∧
    (∀ (renderOk : Rect4 → Bool) (pageW pageH : ℚ) (pn : Nat) (pageText : String)
        (plines : List PLine) (chars : List CharInfo) (words : List WordInfo)
        (counter0 : Nat),
        (extractElementsFromPlumberPage renderOk pageW pageH pn pageText plines chars
            words counter0).1 = [] →
        (extractElementsFromPlumberPage renderOk pageW pageH pn pageText plines chars
            words counter0).2.2 = counter0) ∧
    (∀ (renderOk : Rect4 → Bool) (zx zy : ℚ) (pn : Nat) (toks : List OcrToken)
        (counter0 : Nat),
        ∀ e ∈ (extractElementsWithOcr renderOk zx zy pn toks counter0).1,
          entryAttached pn e) ∧
    (∀ (renderOk : Rect4 → Bool) (zx zy : ℚ) (pn : Nat) (toks : List OcrToken)
        (counter0 : Nat),
        ∀ e ∈ (extractElementsWithOcr renderOk zx zy pn toks counter0).1.dropLast,
          e.sigils_metadata = []) ∧
    (∀ (renderOk : Rect4 → Bool) (zx zy : ℚ) (pn : Nat) (toks : List OcrToken)
        (counter0 : Nat),
        (extractElementsWithOcr renderOk zx zy pn toks counter0).1 = [] →
        (extractElementsWithOcr renderOk zx zy pn toks counter0).2.2 = counter0) :=
  ⟨extractPlumber_attached, extractPlumber_dropLast, extractPlumber_empty_counter,
   extractOcr_attached, extractOcr_dropLast, extractOcr_empty_counter⟩

/-- C2 witness: the attachment property instantiated on a concrete page
with one heading line and one detected glyph. -/
theorem c2_sigil_attachment_witness :
    entryAttached 1
      { heading := "FOO", classTag := "Ab.", description := "x", references_raw := [],
        sigils_metadata := [{ image_path := sigilPath "FOO" 1 1,
                              parent_entry_heading := "FOO", page_number := 1,
                              source_text := "*",
                              bounding_box_pdf_coords := ⟨9, 9, 13, 13⟩,
                              extraction_method := "direct" }],
        page_number := 1 } :=
  c2_sigil_attachment.1 (fun _ => true) 500 700 1 "FOO Ab. x" []
    [{ text := "*", x0 := 10, top := 10, x1 := 12, bottom := 12 }] [] 0
    _ (of_decide_eq_true (by with_unfolding_all rfl))

/- ================================================================
   C9: deduplication of visual annotations.
   ================================================================ -/

theorem dedupByRect_spec :
    ∀ (l : List VisualElem) (seen : List Rect4),
      (∀ v ∈ dedupByRect l seen, v.rect ∉ seen ∧
        List.find? (fun w => w.rect == v.rect) l = some v) ∧
      List.Pairwise (fun a b => a.rect ≠ b.rect) (dedupByRect l seen) ∧
      List.Sublist (dedupByRect l seen) l := by
  intro l
  induction l with
  | nil => intro seen; exact ⟨by simp [dedupByRect], by simp [dedupByRect], by simp [dedupByRect]⟩
  | cons v rest ih =>
    intro seen
    by_cases hseen : seen.contains v.rect = true
    · have hmem : v.rect ∈ seen := List.elem_iff.mp hseen
      have hred : dedupByRect (v :: rest) seen = dedupByRect rest seen := by
        simp [dedupByRect, hmem]
      obtain ⟨ih1, ih2, ih3⟩ := ih seen
      rw [hred]
      refine ⟨?_, ih2, ih3.cons v⟩
      intro x hx
      obtain ⟨hx1, hx2⟩ := ih1 x hx
      have hvx : ¬ (v.rect == x.rect) = true := by
        intro hq
        exact hx1 (by rw [← eq_of_beq hq]; exact hmem)
      refine ⟨hx1, ?_⟩
      rw [show List.find? (fun w => w.rect == x.rect) (v :: rest)
            = List.find? (fun w => w.rect == x.rect) rest from
          List.find?_cons_of_neg rest hvx]
      exact hx2
    · have hmem : v.rect ∉ seen := fun hq => hseen (List.elem_iff.mpr hq)
      have hred : dedupByRect (v :: rest) seen = v :: dedupByRect rest (v.rect :: seen) := by
        simp [dedupByRect, hmem]
      obtain ⟨ih1, ih2, ih3⟩ := ih (v.rect :: seen)
      rw [hred]
      refine ⟨?_, ?_, ih3.cons₂ v⟩
      · intro x hx
        rcases List.mem_cons.mp hx with rfl | hx2
        · refine ⟨hmem, ?_⟩
          exact (show List.find? (fun w => w.rect == x.rect) (x :: rest) = some x from
            List.find?_cons_of_pos rest (by simp))
        · obtain ⟨hx1, hx3⟩ := ih1 x hx2
          have hxr : x.rect ∉ seen := fun hq => hx1 (List.mem_cons_of_mem _ hq)
          have hxv : x.rect ≠ v.rect := by
            intro hq
            exact hx1 (by rw [hq]; exact List.mem_cons_self _ _)
          refine ⟨hxr, ?_⟩
          have hvx2 : ¬ ((fun w => w.rect == x.rect) v) = true := by
            simp only [beq_iff_eq]
            intro hq
            exact hxv (by rw [hq])
          rw [show List.find? (fun w => w.rect == x.rect) (v :: rest)
                = List.find? (fun w => w.rect == x.rect) rest from
              List.find?_cons_of_neg rest hvx2]
          exact hx3
      · refine List.pairwise_cons.mpr ⟨?_, ih2⟩
        intro w hw
        obtain ⟨hw1, _⟩ := ih1 w hw
        intro hq
        exact hw1 (by rw [← hq]; exact List.mem_cons_self _ _)

theorem extractPlumber_visuals_eq (renderOk : Rect4 → Bool) (pageW pageH : ℚ) (pn : Nat)
    (pageText : String) (plines : List PLine) (chars : List CharInfo)
    (words : List WordInfo) (counter0 : Nat) (hpt : ¬ pageText = "") :
    (extractElementsFromPlumberPage renderOk pageW pageH pn pageText plines chars words
        counter0).2.1
      = dedupByRect
          (plumberVisualsRaw renderOk pageW pageH pn pageText plines chars words counter0)
          [] := by
  simp [extractElementsFromPlumberPage, hpt]

/-- C9 counterexample: the claim states no two returned annotations of
either strategy share a bounding-box tuple, but the raster strategy
returns its annotation list without deduplication: two OCR rows with the
same pixel box yield two annotations with the same rectangle. -/
theorem c9_ocr_duplicate_counterexample :
    ¬ List.Pairwise (fun a b => a.rect ≠ b.rect)
      (extractElementsWithOcr (fun _ => true) 2 2 1
        [{ textStr := "xx", isna := false, conf := 50, block_num := 0, line_num := 0,
           left := 10, top := 10, width := 5, height := 5 },
         { textStr := "xx", isna := false, conf := 50, block_num := 0, line_num := 0,
           left := 10, top := 10, width := 5, height := 5 }] 0).2.1 :=
  of_decide_eq_true (by with_unfolding_all rfl)

/-- C9 (amended): the vector strategy's returned annotation list has no
two annotations with an identical bounding-box tuple and each returned
annotation is the first occurrence of its rectangle in the raw annotation
sequence; the raster strategy returns its annotations without
deduplication; and SigilMetadata is never deduplicated, so two
overlapping detections each persist their own crop, as the concrete page
with two identical candidate characters shows: its single entry holds two
metadata records with the same stored box while the annotation list keeps
one saved-sigil annotation. -/
theorem c9_annotation_dedup :
    (∀ (renderOk : Rect4 → Bool) (pageW pageH : ℚ) (pn : Nat) (pageText : String)
        (plines : List PLine) (chars : List CharInfo) (words : List WordInfo)
        (counter0 : Nat),
        List.Pairwise (fun a b => a.rect ≠ b.rect)
          (extractElementsFromPlumberPage renderOk pageW pageH pn pageText plines chars
            words counter0).2.1) ∧
    (∀ (renderOk : Rect4 → Bool) (pageW pageH : ℚ) (pn : Nat) (pageText : String)
        (plines : List PLine) (chars : List CharInfo) (words : List WordInfo)
        (counter0 : Nat), ¬ pageText = "" →
        ∀ v ∈ (extractElementsFromPlumberPage renderOk pageW pageH pn pageText plines
            chars words counter0).2.1,
          List.find? (fun w => w.rect == v.rect)
              (plumberVisualsRaw renderOk pageW pageH pn pageText plines chars words
                counter0)
            = some v) ∧
    (extractElementsFromPlumberPage (fun _ => true) 500 700 1 "FOO Ab. x" []
        [{ text := "*", x0 := 10, top := 10, x1 := 12, bottom := 12 },
         { text := "*", x0 := 10, top := 10, x1 := 12, bottom := 12 }] [] 0).1.map
        (fun e => e.sigils_metadata.map SigilMeta.bounding_box_pdf_coords)
      = [[⟨9, 9, 13, 13⟩, ⟨9, 9, 13, 13⟩]] ∧
    (extractElementsFromPlumberPage (fun _ => true) 500 700 1 "FOO Ab. x" []
        [{ text := "*", x0 := 10, top := 10, x1 := 12, bottom := 12 },
         { text := "*", x0 := 10, top := 10, x1 := 12, bottom := 12 }] [] 0).2.1
      = [{ rect := ⟨10, 10, 12, 12⟩, kind := .saved_sigil, snippet := "*" }] := by
  refine ⟨?_, ?_, by with_unfolding_all rfl, by with_unfolding_all rfl⟩
  · intro renderOk pageW pageH pn pageText plines chars words counter0
    by_cases hpt : pageText = ""
    · simp [extractElementsFromPlumberPage, hpt]
    · rw [extractPlumber_visuals_eq renderOk pageW pageH pn pageText plines chars words
        counter0 hpt]
      exact (dedupByRect_spec _ []).2.1
  · intro renderOk pageW pageH pn pageText plines chars words counter0 hpt v hv
    rw [extractPlumber_visuals_eq renderOk pageW pageH pn pageText plines chars words
      counter0 hpt] at hv
    exact ((dedupByRect_spec _ []).1 v hv).2

/-- C9 witness: the first-occurrence property instantiated on the
concrete one-glyph page. -/
theorem c9_annotation_dedup_witness :
    List.find? (fun w => w.rect ==
        ({ rect := ⟨10, 10, 12, 12⟩, kind := .saved_sigil, snippet := "*" }
          : VisualElem).rect)
      (plumberVisualsRaw (fun _ => true) 500 700 1 "FOO Ab. x" []
        [{ text := "*", x0 := 10, top := 10, x1 := 12, bottom := 12 }] [] 0)
      = some { rect := ⟨10, 10, 12, 12⟩, kind := .saved_sigil, snippet := "*" } :=
  c9_annotation_dedup.2.1 (fun _ => true) 500 700 1 "FOO Ab. x" []
    [{ text := "*", x0 := 10, top := 10, x1 := 12, bottom := 12 }] [] 0
    (by decide) _ (of_decide_eq_true (by with_unfolding_all rfl))
